import Mathlib

/-!
Shallow embedding of the capacity allocation and waitlist engine of the
Conference-Booking-System repository (src/services/bookingService.js, with
its collaborators conferenceService.js and the business validators).

The database state (tables `conferences`, `users`, `bookings`, `waitlist`)
is modelled as lists of records; timestamps are integers (milliseconds);
booking ids are naturals standing in for UUIDs.  Every engine operation is
a pure function from a state and the current time `now` to a result and a
new state; a business-rule failure returns the original state (the SQL
`ROLLBACK`).
-/

namespace ConfBooking

/-- Booking lifecycle status (`bookings.status`). -/
inductive BookingStatus
  | confirmed
  | waitlisted
  | canceled
deriving DecidableEq, Repr

/-- A row of the `conferences` table (the fields the engine reads). -/
structure Conference where
  name : String
  start_time : Int
  end_time : Int
  total_slots : Nat
  available_slots : Int
deriving DecidableEq, Repr

/-- A row of the `bookings` table. -/
structure Booking where
  booking_id : Nat
  conference_name : String
  user_id : String
  status : BookingStatus
  created_at : Int
  confirm_by : Option Int
deriving DecidableEq, Repr

/-- A row of the `waitlist` table. -/
structure WaitlistEntry where
  conference_name : String
  booking_id : Nat
  position : Nat
  created_at : Int
deriving DecidableEq, Repr

/-- The whole database state. -/
structure DBState where
  conferences : List Conference
  users : List String
  bookings : List Booking
  waitlist : List WaitlistEntry
deriving DecidableEq, Repr

/-- `conferenceService.getConferenceByName`: `SELECT * FROM conferences WHERE name = $1`. -/
def getConferenceByName (st : DBState) (name : String) : Option Conference :=
  st.conferences.find? (fun c => c.name == name)

/-- `userService.getUserById` succeeds: the user row exists. -/
def userExists (st : DBState) (uid : String) : Bool :=
  st.users.contains uid

/-- `businessValidation.hasExistingBooking`: a non-CANCELED booking of this
user for this conference exists. -/
def hasExistingBooking (st : DBState) (uid conf : String) : Bool :=
  st.bookings.any (fun b =>
    b.user_id == uid && b.conference_name == conf && b.status != .canceled)

/-- `businessValidation.hasConflictingBooking`: the user holds a CONFIRMED or
WAITLISTED booking whose conference's time window overlaps `[s, e)`
(`c.start_time < $3 AND c.end_time > $2`). -/
def hasConflictingBooking (st : DBState) (uid : String) (s e : Int) : Bool :=
  st.bookings.any (fun b =>
    b.user_id == uid && (b.status == .confirmed || b.status == .waitlisted) &&
    (match getConferenceByName st b.conference_name with
     | some c => decide (c.start_time < e) && decide (c.end_time > s)
     | none => false))

/-- The waitlist rows of one conference (`WHERE conference_name = $1`). -/
def confEntries (st : DBState) (conf : String) : List WaitlistEntry :=
  st.waitlist.filter (fun w => w.conference_name == conf)

/-- `SELECT COALESCE(MAX(position), 0) FROM waitlist WHERE conference_name = $1`. -/
def maxPosition (st : DBState) (conf : String) : Nat :=
  (confEntries st conf).foldr (fun w m => max w.position m) 0

/-- `UPDATE conferences SET available_slots = available_slots + d WHERE name = $1`
(the engine issues this with `d = -1` on book/confirm and `d = 1` on cancel,
with no bound checks). -/
def adjustSlots (st : DBState) (conf : String) (d : Int) : DBState :=
  { st with conferences := st.conferences.map (fun c =>
      if c.name == conf then { c with available_slots := c.available_slots + d } else c) }

/-- `UPDATE bookings SET confirm_by = v WHERE booking_id = $1`. -/
def setConfirmBy (st : DBState) (bid : Nat) (v : Option Int) : DBState :=
  { st with bookings := st.bookings.map (fun b =>
      if b.booking_id == bid then { b with confirm_by := v } else b) }

/-- One hour in milliseconds (`Date.now() + 60 * 60 * 1000`). -/
def gracePeriod : Int := 3600000

/-- The head of a conference's waitlist: the SQL
`ORDER BY position ASC LIMIT 1` over its waitlist rows (first row with
minimal position). -/
def waitlistHead (st : DBState) (conf : String) : Option WaitlistEntry :=
  (confEntries st conf).foldl (fun acc w =>
    match acc with
    | none => some w
    | some v => if w.position < v.position then some w else some v) none

/-- `bookingService.processNextInWaitlist`: if the conference's waitlist is
non-empty, stamp its head's booking with `confirm_by = now + 1 hour`.  No
status and no capacity change. -/
def processNextInWaitlist (st : DBState) (now : Int) (conf : String) : DBState :=
  match waitlistHead st conf with
  | some w => setConfirmBy st w.booking_id (some (now + gracePeriod))
  | none => st

/-- The per-booking displacement condition of `removeUserFromAllWaitlists`:
the booking belongs to the user, is WAITLISTED, and (when an excluded
conference is given) is for a different conference. -/
def displaceCond (uid : String) (exclude : Option String) (b : Booking) : Bool :=
  b.user_id == uid && b.status == .waitlisted &&
    (match exclude with
     | some ex => b.conference_name != ex
     | none => true)

/-- The booking ids targeted by the waitlist `DELETE ... WHERE booking_id IN
(SELECT booking_id FROM bookings WHERE ...)` of `removeUserFromAllWaitlists`. -/
def displacedIds (st : DBState) (uid : String) (exclude : Option String) : List Nat :=
  (st.bookings.filter (displaceCond uid exclude)).map (fun b => b.booking_id)

/-- `bookingService.removeUserFromAllWaitlists`: delete the user's WAITLISTED
entries from every waitlist except the excluded conference's, then set those
bookings to CANCELED.  No reorder of the affected waitlists. -/
def removeUserFromAllWaitlists (st : DBState) (uid : String)
    (exclude : Option String) : DBState :=
  let ids := displacedIds st uid exclude
  { st with
    waitlist := st.waitlist.filter (fun w => !(ids.contains w.booking_id)),
    bookings := st.bookings.map (fun b =>
      if displaceCond uid exclude b then { b with status := .canceled } else b) }

/-- Result of `bookConference`. -/
inductive BookOutcome
  | conferenceNotFound
  | userNotFound
  | conferenceStarted
  | duplicateBooking
  | timeConflict
  | confirmedBooking (bid : Nat)
  | waitlistedBooking (bid : Nat) (pos : Nat)
deriving DecidableEq, Repr

/-- `bookingService.bookConference`.  `newId` is the freshly drawn UUID;
`now` is the transaction time. -/
def bookConference (st : DBState) (now : Int) (conf uid : String)
    (newId : Nat) : BookOutcome × DBState :=
  match getConferenceByName st conf with
  | none => (.conferenceNotFound, st)
  | some c =>
    if !(userExists st uid) then (.userNotFound, st)
    else if c.start_time ≤ now then (.conferenceStarted, st)
    else if hasExistingBooking st uid conf then (.duplicateBooking, st)
    else if hasConflictingBooking st uid c.start_time c.end_time then (.timeConflict, st)
    else if 0 < c.available_slots then
      (.confirmedBooking newId,
        removeUserFromAllWaitlists
          (adjustSlots
            { st with bookings := st.bookings ++ [⟨newId, conf, uid, .confirmed, now, none⟩] }
            conf (-1))
          uid (some conf))
    else
      (.waitlistedBooking newId (maxPosition st conf + 1),
        { st with
          bookings := st.bookings ++ [⟨newId, conf, uid, .waitlisted, now, none⟩],
          waitlist := st.waitlist ++ [⟨conf, newId, maxPosition st conf + 1, now⟩] })

/-- The `SELECT b.*, c.available_slots, c.start_time FROM bookings b JOIN
conferences c ON b.conference_name = c.name WHERE b.booking_id = $1` lookup
shared by confirm and cancel: it yields a row only when both the booking and
its conference exist. -/
def lookupBookingJoin (st : DBState) (bid : Nat) : Option (Booking × Conference) :=
  match st.bookings.find? (fun b => b.booking_id == bid) with
  | none => none
  | some b =>
    match getConferenceByName st b.conference_name with
    | none => none
    | some c => some (b, c)

/-- Result of `confirmWaitlistBooking`. -/
inductive ConfirmOutcome
  | bookingNotFound
  | notWaitlisted
  | conferenceStarted
  | deadlinePassed
  | noSlots
  | confirmed
deriving DecidableEq, Repr

/-- `UPDATE bookings SET status = 'CONFIRMED', confirm_by = NULL
WHERE booking_id = $1`. -/
def markConfirmed (st : DBState) (bid : Nat) : DBState :=
  { st with bookings := st.bookings.map (fun x =>
      if x.booking_id == bid then { x with status := .confirmed, confirm_by := none }
      else x) }

/-- `UPDATE bookings SET status = 'CANCELED' WHERE booking_id = $1`. -/
def markCanceled (st : DBState) (bid : Nat) : DBState :=
  { st with bookings := st.bookings.map (fun x =>
      if x.booking_id == bid then { x with status := .canceled } else x) }

/-- `DELETE FROM waitlist WHERE booking_id = $1`. -/
def deleteWaitlistRow (st : DBState) (bid : Nat) : DBState :=
  { st with waitlist := st.waitlist.filter (fun w => w.booking_id != bid) }

/-- `bookingService.confirmWaitlistBooking`. -/
def confirmWaitlistBooking (st : DBState) (now : Int) (bid : Nat) :
    ConfirmOutcome × DBState :=
  match lookupBookingJoin st bid with
  | none => (.bookingNotFound, st)
  | some (b, c) =>
    if b.status != .waitlisted then (.notWaitlisted, st)
    else if c.start_time ≤ now then (.conferenceStarted, st)
    else if (match b.confirm_by with
             | some d => decide (d < now)
             | none => false) then (.deadlinePassed, st)
    else if c.available_slots ≤ 0 then (.noSlots, st)
    else
      (.confirmed,
        processNextInWaitlist
          (removeUserFromAllWaitlists
            (deleteWaitlistRow
              (adjustSlots (markConfirmed st bid) b.conference_name (-1)) bid)
            b.user_id (some b.conference_name))
          now b.conference_name)

/-- Stable insertion of a waitlist row into a list sorted by `created_at`
ascending (rows with equal keys keep their relative order). -/
def insertByCreatedAt (w : WaitlistEntry) :
    List WaitlistEntry → List WaitlistEntry
  | [] => [w]
  | x :: xs =>
    if w.created_at < x.created_at then w :: x :: xs else x :: insertByCreatedAt w xs

/-- Stable sort by `created_at` ascending: the `ORDER BY created_at` of
`reorderWaitlist`'s `ROW_NUMBER` subquery. -/
def sortByCreatedAt : List WaitlistEntry → List WaitlistEntry
  | [] => []
  | x :: xs => insertByCreatedAt x (sortByCreatedAt xs)

/-- `ROW_NUMBER() OVER (ORDER BY created_at)`: pair each row's booking id
with its 1-based rank in the sorted order. -/
def assignPositions : Nat → List WaitlistEntry → List (Nat × Nat)
  | _, [] => []
  | k, w :: ws => (w.booking_id, k) :: assignPositions (k + 1) ws

/-- The `UPDATE waitlist SET position = new_position ... WHERE
waitlist.booking_id = reordered.booking_id AND waitlist.conference_name = $1`
join-back of `reorderWaitlist`, applied to one row. -/
def applyRanks (ranks : List (Nat × Nat)) (conf : String) (w : WaitlistEntry) :
    WaitlistEntry :=
  if w.conference_name == conf then
    match ranks.find? (fun p => p.1 == w.booking_id) with
    | some p => { w with position := p.2 }
    | none => w
  else w

/-- `bookingService.reorderWaitlist`: recompute the positions of one
conference's waitlist rows as their `ROW_NUMBER` by `created_at`, joined back
by `booking_id`. -/
def reorderWaitlist (st : DBState) (conf : String) : DBState :=
  let ranks := assignPositions 1 (sortByCreatedAt (confEntries st conf))
  { st with waitlist := st.waitlist.map (applyRanks ranks conf) }

/-- Result of `cancelBooking`. -/
inductive CancelOutcome
  | bookingNotFound
  | alreadyCanceled
  | conferenceStarted
  | canceled
deriving DecidableEq, Repr

/-- `bookingService.cancelBooking`.  Past the not-found / already-canceled /
already-started checks the prior status is CONFIRMED or WAITLISTED, and the
code's two status tests select exactly one of the two effect branches. -/
def cancelBooking (st : DBState) (now : Int) (bid : Nat) :
    CancelOutcome × DBState :=
  match lookupBookingJoin st bid with
  | none => (.bookingNotFound, st)
  | some (b, c) =>
    if b.status == .canceled then (.alreadyCanceled, st)
    else if c.start_time ≤ now then (.conferenceStarted, st)
    else if b.status == .confirmed then
      (.canceled,
        processNextInWaitlist
          (adjustSlots (markCanceled st bid) b.conference_name 1)
          now b.conference_name)
    else
      (.canceled,
        reorderWaitlist (deleteWaitlistRow (markCanceled st bid) bid)
          b.conference_name)

/-- The `WHERE status = 'WAITLISTED' AND confirm_by IS NOT NULL AND
confirm_by < $1` selection of `handleExpiredWaitlistBookings`. -/
def isExpired (now : Int) (b : Booking) : Bool :=
  b.status == .waitlisted &&
    (match b.confirm_by with
     | some d => decide (d < now)
     | none => false)

/-- `UPDATE waitlist SET position = $1 WHERE booking_id = $2`. -/
def setWaitlistPos (st : DBState) (bid : Nat) (pos : Nat) : DBState :=
  { st with waitlist := st.waitlist.map (fun w =>
      if w.booking_id == bid then { w with position := pos } else w) }

/-- One iteration of the expiry loop: move the booking's waitlist row to
`max position + 1` (the max taken over the conference's current rows, the
moved row included), clear its `confirm_by`, then promote the new head. -/
def requeueExpired (st : DBState) (now : Int) (bid : Nat) (conf : String) : DBState :=
  processNextInWaitlist
    (setConfirmBy (setWaitlistPos st bid (maxPosition st conf + 1)) bid none)
    now conf

/-- `bookingService.handleExpiredWaitlistBookings`: one transaction that
requeues every expired WAITLISTED booking (snapshot taken up front) in turn. -/
def handleExpiredWaitlistBookings (st : DBState) (now : Int) : DBState :=
  let expired := st.bookings.filter (isExpired now)
  expired.foldl (fun s b => requeueExpired s now b.booking_id b.conference_name) st

/-- The per-conference body of `autoCancelForStartedConferences`: set every
WAITLISTED booking of the conference to CANCELED and delete all its waitlist
rows. -/
def autoCancelStep (st : DBState) (conf : String) : DBState :=
  { st with
    bookings := st.bookings.map (fun b =>
      if b.conference_name == conf && b.status == .waitlisted then
        { b with status := .canceled }
      else b),
    waitlist := st.waitlist.filter (fun w => w.conference_name != conf) }

/-- `conferenceService.getStartedConferences`: `WHERE start_time <= now`. -/
def startedConferences (st : DBState) (now : Int) : List Conference :=
  st.conferences.filter (fun c => decide (c.start_time ≤ now))

/-- The sweep loop of `autoCancelForStartedConferences`, with an oracle
`fails` marking the conferences whose statements raise an infrastructure
failure (`client.query` throwing): the loop body runs conference by
conference inside the surrounding transaction and a failure aborts it. -/
def sweepStarted (fails : String → Bool) :
    List Conference → DBState → Option DBState
  | [], st => some st
  | c :: rest, st =>
    if fails c.name then none
    else sweepStarted fails rest (autoCancelStep st c.name)

/-- `bookingService.autoCancelForStartedConferences`: one `BEGIN ... COMMIT`
around the whole loop; any failure triggers a single `ROLLBACK` of the entire
sweep (second component `false`). -/
def autoCancelForStartedConferences (st : DBState) (now : Int)
    (fails : String → Bool) : DBState × Bool :=
  match sweepStarted fails (startedConferences st now) st with
  | some s => (s, true)
  | none => (st, false)

/-!  Stated properties of the engine.  -/

/-- The booking counts towards `count(CONFIRMED requests for that resource)`. -/
def isConfirmedFor (conf : String) (b : Booking) : Bool :=
  b.conference_name == conf && b.status == .confirmed

/-- Number of CONFIRMED bookings of a conference. -/
def confirmedCount (st : DBState) (conf : String) : Nat :=
  st.bookings.countP (isConfirmedFor conf)

/-- The capacity ledger invariant:
`available_capacity = total_capacity - count(CONFIRMED)` for every
conference row. -/
def ledgerOK (st : DBState) : Prop :=
  ∀ c ∈ st.conferences,
    c.available_slots = (c.total_slots : Int) - (confirmedCount st c.name : Int)

/-- The positions of a conference's waitlist rows. -/
def positionsOf (st : DBState) (conf : String) : List Nat :=
  (confEntries st conf).map (fun w => w.position)

/-- Number of waitlist rows of a conference. -/
def waitlistCount (st : DBState) (conf : String) : Nat :=
  (confEntries st conf).length

/-- The dense-position invariant for one conference relative to its own
waitlist rows: the positions are exactly `{1, ..., N}`, `N` the number of
rows. -/
def denseFor (st : DBState) (conf : String) : Prop :=
  (positionsOf st conf).Perm (List.range' 1 (waitlistCount st conf))

/-- Number of WAITLISTED bookings of a conference
(`COUNT(*) FROM bookings WHERE conference_name = $1 AND status = 'WAITLISTED'`). -/
def waitlistedCount (st : DBState) (conf : String) : Nat :=
  st.bookings.countP
    (fun b => b.conference_name == conf && b.status == BookingStatus.waitlisted)

/-- The dense-position invariant for one conference as the spec states it:
the waitlist positions are exactly `{1, ..., N}` where `N` is the number of
WAITLISTED bookings of the conference. -/
def denseWaitlisted (st : DBState) (conf : String) : Prop :=
  (positionsOf st conf).Perm (List.range' 1 (waitlistedCount st conf))

/-!  Shared toolkit lemmas.  -/

lemma map_eq_self_of_eq {α : Type} {f : α → α} :
    ∀ {l : List α}, (∀ x ∈ l, f x = x) → l.map f = l
  | [], _ => rfl
  | x :: xs, h => by
    simp only [List.map_cons, h x (List.mem_cons_self x xs),
      map_eq_self_of_eq (fun y hy => h y (List.mem_cons_of_mem x hy))]

/-- Counting is unchanged by a map that leaves the counted predicate
pointwise invariant. -/
lemma countP_map_invariant {α : Type} {p : α → Bool} {f : α → α} {l : List α}
    (h : ∀ x ∈ l, p (f x) = p x) : (l.map f).countP p = l.countP p := by
  rw [List.countP_map]
  exact List.countP_congr (fun x hx => by simp [h x hx])

/-- Counting after an update at a unique key: the updated element's old
contribution is traded for its new one. -/
lemma countP_map_update_unique {p : Booking → Bool} {g : Booking → Booking} :
    ∀ {l : List Booking} {bid : Nat} {b : Booking},
    (l.map (fun x => x.booking_id)).Nodup →
    l.find? (fun x => x.booking_id == bid) = some b →
    (l.map (fun x => if x.booking_id == bid then g x else x)).countP p
        + (if p b then 1 else 0)
      = l.countP p + (if p (g b) then 1 else 0) := by
  intro l
  induction l with
  | nil => intro bid b _ hfind; simp [List.find?] at hfind
  | cons x xs ih =>
    intro bid b hnd hfind
    rw [List.map_cons, List.nodup_cons] at hnd
    by_cases hx : x.booking_id == bid
    · have hfind' : some x = some b := by simpa [List.find?, hx] using hfind
      injection hfind' with hxb
      subst hxb
      have htail : xs.map (fun y => if y.booking_id == bid then g y else y) = xs := by
        apply map_eq_self_of_eq
        intro y hy
        have hne : y.booking_id ≠ x.booking_id := by
          intro hcontra
          exact hnd.1 (hcontra ▸ List.mem_map_of_mem (fun z => z.booking_id) hy)
        have : (y.booking_id == bid) = false :=
          beq_eq_false_iff_ne.mpr (fun hc => hne (hc.trans (beq_iff_eq.mp hx).symm))
        simp [this]
      simp only [List.map_cons, hx, if_true, List.countP_cons, htail]
      omega
    · have hxf : (x.booking_id == bid) = false := by simpa using hx
      have hfind' : List.find? (fun x => x.booking_id == bid) xs = some b := by
        simpa [List.find?, hxf] using hfind
      have := ih hnd.2 hfind'
      simp only [List.map_cons, hxf, Bool.false_eq_true, if_false, List.countP_cons]
      omega

/-- A state change that keeps the conference rows and all confirmed counts
keeps the ledger invariant. -/
lemma ledgerOK_of_frame {st st' : DBState}
    (hc : st'.conferences = st.conferences)
    (hn : ∀ conf, confirmedCount st' conf = confirmedCount st conf)
    (h : ledgerOK st) : ledgerOK st' := by
  intro c hcmem
  rw [hc] at hcmem
  rw [hn]
  exact h c hcmem

/-- Displacement cancels only WAITLISTED bookings: confirmed counts are
untouched, and the conference rows verbatim so. -/
lemma confirmedCount_removeUser (st : DBState) (uid : String)
    (exclude : Option String) (conf : String) :
    confirmedCount (removeUserFromAllWaitlists st uid exclude) conf
      = confirmedCount st conf := by
  unfold confirmedCount removeUserFromAllWaitlists
  apply countP_map_invariant
  intro b _
  by_cases hb : displaceCond uid exclude b
  · have hw : b.status = .waitlisted := by
      simp only [displaceCond, Bool.and_eq_true, beq_iff_eq] at hb
      exact hb.1.2
    have h1 : (BookingStatus.canceled == BookingStatus.confirmed) = false := by decide
    have h2 : (BookingStatus.waitlisted == BookingStatus.confirmed) = false := by decide
    simp [isConfirmedFor, hb, hw, h1, h2]
  · simp [hb]

lemma conferences_removeUser (st : DBState) (uid : String)
    (exclude : Option String) :
    (removeUserFromAllWaitlists st uid exclude).conferences = st.conferences := rfl

lemma conferences_setConfirmBy (st : DBState) (bid : Nat) (v : Option Int) :
    (setConfirmBy st bid v).conferences = st.conferences := rfl

lemma confirmedCount_setConfirmBy (st : DBState) (bid : Nat) (v : Option Int)
    (conf : String) :
    confirmedCount (setConfirmBy st bid v) conf = confirmedCount st conf := by
  unfold confirmedCount setConfirmBy
  apply countP_map_invariant
  intro b _
  by_cases hb : b.booking_id == bid <;> simp [isConfirmedFor, hb]

lemma conferences_processNext (st : DBState) (now : Int) (conf : String) :
    (processNextInWaitlist st now conf).conferences = st.conferences := by
  unfold processNextInWaitlist
  cases waitlistHead st conf <;> rfl

lemma confirmedCount_processNext (st : DBState) (now : Int) (conf cf : String) :
    confirmedCount (processNextInWaitlist st now conf) cf = confirmedCount st cf := by
  unfold processNextInWaitlist
  cases waitlistHead st conf with
  | none => rfl
  | some w => exact confirmedCount_setConfirmBy ..

lemma bookings_processNext (st : DBState) (now : Int) (conf : String) :
    ∃ f : Booking → Booking,
      (processNextInWaitlist st now conf).bookings = st.bookings.map f ∧
      ∀ b, (f b).status = b.status ∧ (f b).conference_name = b.conference_name ∧
        (f b).booking_id = b.booking_id ∧ (f b).user_id = b.user_id := by
  unfold processNextInWaitlist
  cases waitlistHead st conf with
  | none => exact ⟨id, by simp, by simp⟩
  | some w =>
    refine ⟨fun b => if b.booking_id == w.booking_id
      then { b with confirm_by := some (now + gracePeriod) } else b, rfl, ?_⟩
    intro b
    by_cases hb : b.booking_id == w.booking_id <;> simp [hb]

lemma waitlist_processNext (st : DBState) (now : Int) (conf : String) :
    (processNextInWaitlist st now conf).waitlist = st.waitlist := by
  unfold processNextInWaitlist
  cases waitlistHead st conf <;> rfl

lemma lookupBookingJoin_eq_some {st : DBState} {bid : Nat} {b : Booking}
    {c : Conference} (h : lookupBookingJoin st bid = some (b, c)) :
    st.bookings.find? (fun x => x.booking_id == bid) = some b ∧
      getConferenceByName st b.conference_name = some c := by
  unfold lookupBookingJoin at h
  split at h
  · exact absurd h (by simp)
  next b' hf =>
    split at h
    · exact absurd h (by simp)
    next c' hg =>
      injection h with h2
      rw [Prod.mk.injEq] at h2
      obtain ⟨rfl, rfl⟩ := h2
      exact ⟨hf, hg⟩

lemma confirmedCount_adjustSlots (st : DBState) (conf : String) (d : Int)
    (nm : String) :
    confirmedCount (adjustSlots st conf d) nm = confirmedCount st nm := rfl

lemma confirmedCount_append (st : DBState) (b : Booking) (conf : String) :
    confirmedCount { st with bookings := st.bookings ++ [b] } conf
      = confirmedCount st conf + (if isConfirmedFor conf b then 1 else 0) := by
  simp [confirmedCount, List.countP_append, List.countP_cons]

/-- Ledger preservation through an `available_slots = available_slots + d`
update whose confirmed counts moved by exactly `-d` at the touched
conference. -/
lemma ledgerOK_adjust_of_count {st st' : DBState} {conf : String} {d : Int}
    (hc : st'.conferences = (adjustSlots st conf d).conferences)
    (hn : ∀ nm, (confirmedCount st' nm : Int)
        = (confirmedCount st nm : Int) - (if conf = nm then d else 0))
    (h : ledgerOK st) : ledgerOK st' := by
  intro cc hcc
  rw [hc] at hcc
  simp only [adjustSlots] at hcc
  obtain ⟨c0, hc0, rfl⟩ := List.mem_map.mp hcc
  by_cases hnm : c0.name == conf
  · have heq : c0.name = conf := beq_iff_eq.mp hnm
    have hcur := h c0 hc0
    have hcnt := hn c0.name
    rw [if_pos heq.symm] at hcnt
    simp only [hnm, if_true]
    omega
  · have hne : conf ≠ c0.name := fun hcontra => by simp [hcontra] at hnm
    have hcur := h c0 hc0
    have hcnt := hn c0.name
    rw [if_neg hne] at hcnt
    simp only [hnm, Bool.false_eq_true, if_false]
    omega

lemma ledger_bookConference (st : DBState) (now : Int) (conf uid : String)
    (nid : Nat) (h : ledgerOK st) :
    ledgerOK (bookConference st now conf uid nid).2 := by
  unfold bookConference
  split
  · exact h
  split
  · exact h
  split
  · exact h
  split
  · exact h
  split
  · exact h
  split
  · -- CONFIRMED branch: append a CONFIRMED booking, decrement, displace
    refine @ledgerOK_adjust_of_count st _ conf (-1) rfl ?_ h
    intro nm
    rw [show (confirmedCount (BookOutcome.confirmedBooking nid,
        removeUserFromAllWaitlists
          (adjustSlots
            { st with bookings := st.bookings ++ [⟨nid, conf, uid, .confirmed, now, none⟩] }
            conf (-1))
          uid (some conf)).2 nm)
      = confirmedCount
          { st with bookings := st.bookings ++ [⟨nid, conf, uid, .confirmed, now, none⟩] }
          nm from confirmedCount_removeUser ..]
    rw [confirmedCount_append]
    have hB : isConfirmedFor nm (⟨nid, conf, uid, .confirmed, now, none⟩ : Booking)
        = (conf == nm) := by simp [isConfirmedFor]
    rw [hB]
    by_cases hnm : conf = nm <;> simp [hnm]
  · -- WAITLISTED branch: append a WAITLISTED booking, no capacity change
    refine @ledgerOK_of_frame st _ rfl ?_ h
    intro nm
    have hB : isConfirmedFor nm (⟨nid, conf, uid, .waitlisted, now, none⟩ : Booking)
        = false := by simp [isConfirmedFor]
    simp [confirmedCount, List.countP_append, List.countP_cons, hB]

instance (st : DBState) : Decidable (ledgerOK st) := by
  unfold ledgerOK; infer_instance

instance (st : DBState) (conf : String) : Decidable (denseFor st conf) := by
  unfold denseFor; infer_instance

instance (st : DBState) (conf : String) : Decidable (denseWaitlisted st conf) := by
  unfold denseWaitlisted; infer_instance

lemma confirmedCount_deleteRow (st : DBState) (bid : Nat) (nm : String) :
    confirmedCount (deleteWaitlistRow st bid) nm = confirmedCount st nm := rfl

lemma confirmedCount_reorder (st : DBState) (conf : String) (nm : String) :
    confirmedCount (reorderWaitlist st conf) nm = confirmedCount st nm := rfl

lemma confirmedCount_setWaitlistPos (st : DBState) (bid pos : Nat) (nm : String) :
    confirmedCount (setWaitlistPos st bid pos) nm = confirmedCount st nm := rfl

lemma conferences_deleteRow (st : DBState) (bid : Nat) :
    (deleteWaitlistRow st bid).conferences = st.conferences := rfl

lemma conferences_reorder (st : DBState) (conf : String) :
    (reorderWaitlist st conf).conferences = st.conferences := rfl

lemma ledger_confirm (st : DBState) (now : Int) (bid : Nat)
    (hids : (st.bookings.map (fun x => x.booking_id)).Nodup)
    (h : ledgerOK st) :
    ledgerOK (confirmWaitlistBooking st now bid).2 := by
  unfold confirmWaitlistBooking
  split
  · exact h
  next b c heq =>
    obtain ⟨hfind, hconf⟩ := lookupBookingJoin_eq_some heq
    split
    · exact h
    split
    · exact h
    split
    · exact h
    split
    · exact h
    rename_i hstat hstart hdead hslots
    have hbw : b.status = .waitlisted := by simpa using hstat
    refine @ledgerOK_adjust_of_count st _ b.conference_name (-1) ?_ ?_ h
    · rw [conferences_processNext, conferences_removeUser]
      rfl
    · intro nm
      rw [confirmedCount_processNext, confirmedCount_removeUser,
        confirmedCount_deleteRow, confirmedCount_adjustSlots]
      have hkey := countP_map_update_unique (p := isConfirmedFor nm)
        (g := fun x => { x with status := BookingStatus.confirmed, confirm_by := none })
        hids hfind
      have hpb : isConfirmedFor nm b = false := by simp [isConfirmedFor, hbw]
      have hpgb : isConfirmedFor nm
          { b with status := BookingStatus.confirmed, confirm_by := none }
          = (b.conference_name == nm) := by simp [isConfirmedFor]
      rw [hpb, hpgb] at hkey
      have hgoal : confirmedCount (markConfirmed st bid) nm
            + (if false = true then 1 else 0)
          = confirmedCount st nm
            + (if (b.conference_name == nm) = true then 1 else 0) := hkey
      by_cases hnm : b.conference_name = nm <;> simp [hnm] at hgoal ⊢ <;> omega

lemma ledger_cancel (st : DBState) (now : Int) (bid : Nat)
    (hids : (st.bookings.map (fun x => x.booking_id)).Nodup)
    (h : ledgerOK st) :
    ledgerOK (cancelBooking st now bid).2 := by
  unfold cancelBooking
  split
  · exact h
  next b c heq =>
    obtain ⟨hfind, hconf⟩ := lookupBookingJoin_eq_some heq
    split
    · exact h
    split
    · exact h
    split
    · -- prior status CONFIRMED: slots go up by one, confirmed count down by one
      rename_i hcanc hstart hisconf
      have hbc : b.status = .confirmed := by simpa using hisconf
      refine @ledgerOK_adjust_of_count st _ b.conference_name 1 ?_ ?_ h
      · rw [conferences_processNext]
        rfl
      · intro nm
        rw [confirmedCount_processNext, confirmedCount_adjustSlots]
        have hkey := countP_map_update_unique (p := isConfirmedFor nm)
          (g := fun x => { x with status := BookingStatus.canceled }) hids hfind
        have hpb : isConfirmedFor nm b = (b.conference_name == nm) := by
          simp [isConfirmedFor, hbc]
        have hpgb : isConfirmedFor nm { b with status := BookingStatus.canceled }
            = false := by simp [isConfirmedFor]
        rw [hpb, hpgb] at hkey
        have hgoal : confirmedCount (markCanceled st bid) nm
              + (if (b.conference_name == nm) = true then 1 else 0)
            = confirmedCount st nm + (if false = true then 1 else 0) := hkey
        by_cases hnm : b.conference_name = nm <;> simp [hnm] at hgoal ⊢ <;> omega
    · -- prior status WAITLISTED: no capacity change, confirmed count unchanged
      rename_i hcanc hstart hnotconf
      have hbw : b.status = .waitlisted := by
        cases hsb : b.status
        · exact absurd (by simp [hsb]) hnotconf
        · rfl
        · exact absurd (by simp [hsb]) hcanc
      refine ledgerOK_of_frame ?_ ?_ h
      · rw [conferences_reorder, conferences_deleteRow]
        rfl
      · intro nm
        rw [confirmedCount_reorder, confirmedCount_deleteRow]
        have hkey := countP_map_update_unique (p := isConfirmedFor nm)
          (g := fun x => { x with status := BookingStatus.canceled }) hids hfind
        have hpb : isConfirmedFor nm b = false := by simp [isConfirmedFor, hbw]
        have hpgb : isConfirmedFor nm { b with status := BookingStatus.canceled }
            = false := by simp [isConfirmedFor]
        rw [hpb, hpgb] at hkey
        simp only [Bool.false_eq_true, if_false] at hkey
        have hgoal : confirmedCount (markCanceled st bid) nm + 0
            = confirmedCount st nm + 0 := hkey
        omega

lemma ledger_requeue (st : DBState) (now : Int) (bid : Nat) (conf : String)
    (h : ledgerOK st) : ledgerOK (requeueExpired st now bid conf) := by
  unfold requeueExpired
  refine ledgerOK_of_frame ?_ ?_ h
  · rw [conferences_processNext, conferences_setConfirmBy]
    rfl
  · intro nm
    rw [confirmedCount_processNext, confirmedCount_setConfirmBy,
      confirmedCount_setWaitlistPos]

lemma ledger_requeue_fold (now : Int) :
    ∀ (l : List Booking) (st : DBState), ledgerOK st →
      ledgerOK (l.foldl
        (fun s x => requeueExpired s now x.booking_id x.conference_name) st)
  | [], _, h => h
  | x :: xs, st, h =>
    ledger_requeue_fold now xs _
      (ledger_requeue st now x.booking_id x.conference_name h)

lemma ledger_handleExpired (st : DBState) (now : Int) (h : ledgerOK st) :
    ledgerOK (handleExpiredWaitlistBookings st now) :=
  ledger_requeue_fold now _ st h

lemma ledger_autoCancelStep (st : DBState) (conf : String) (h : ledgerOK st) :
    ledgerOK (autoCancelStep st conf) := by
  refine @ledgerOK_of_frame st (autoCancelStep st conf) rfl ?_ h
  intro nm
  show (st.bookings.map (fun b =>
      if b.conference_name == conf && b.status == BookingStatus.waitlisted then
        { b with status := BookingStatus.canceled } else b)).countP (isConfirmedFor nm)
    = st.bookings.countP (isConfirmedFor nm)
  apply countP_map_invariant
  intro b _
  by_cases hb : (b.conference_name == conf && b.status == BookingStatus.waitlisted)
  · have hc2 : b.conference_name = conf := by
      simp only [Bool.and_eq_true, beq_iff_eq] at hb
      exact hb.1
    have hw : b.status = .waitlisted := by
      simp only [Bool.and_eq_true, beq_iff_eq] at hb
      exact hb.2
    have h1 : (BookingStatus.canceled == BookingStatus.confirmed) = false := by decide
    have h2 : (BookingStatus.waitlisted == BookingStatus.confirmed) = false := by decide
    simp [isConfirmedFor, hb, hc2, hw, h1, h2]
  · simp [hb]

lemma ledger_sweepStarted (fails : String → Bool) :
    ∀ (l : List Conference) (st s : DBState), ledgerOK st →
      sweepStarted fails l st = some s → ledgerOK s
  | [], st, s, h, heq => by
    injection heq with h2
    exact h2 ▸ h
  | c :: rest, st, s, h, heq => by
    unfold sweepStarted at heq
    by_cases hf : fails c.name = true
    · rw [if_pos hf] at heq
      exact absurd heq (by simp)
    · rw [if_neg hf] at heq
      exact ledger_sweepStarted fails rest _ s (ledger_autoCancelStep st c.name h) heq

lemma ledger_autoCancel (st : DBState) (now : Int) (fails : String → Bool)
    (h : ledgerOK st) :
    ledgerOK (autoCancelForStartedConferences st now fails).1 := by
  unfold autoCancelForStartedConferences
  split
  next s heq => exact ledger_sweepStarted fails _ st s h heq
  next heq => exact h

/-- A mid-scenario state shared by the concrete witnesses: one conference
with 2 seats and 1 free, one CONFIRMED booking, two WAITLISTED bookings at
dense positions 1 and 2, the head holding a `confirm_by` deadline. -/
def Wstate : DBState :=
  ⟨[⟨"c", 100, 200, 2, 1⟩],
   ["A", "B", "C", "D"],
   [⟨1, "c", "A", .confirmed, 0, none⟩,
    ⟨2, "c", "B", .waitlisted, 0, some 50⟩,
    ⟨3, "c", "C", .waitlisted, 0, none⟩],
   [⟨"c", 2, 1, 0⟩, ⟨"c", 3, 2, 0⟩]⟩

/-- C1: for every conference, after every mutating engine operation
(`bookConference`, `confirmWaitlistBooking`, `cancelBooking`,
`handleExpiredWaitlistBookings`, `autoCancelForStartedConferences`),
`available_slots` equals `total_slots` minus the number of CONFIRMED
bookings for that conference, provided it did before (booking ids unique,
as the database primary key guarantees). -/
theorem capacity_ledger_preserved (st : DBState) (now : Int) (conf uid : String)
    (nid bid bid2 : Nat) (fails : String → Bool)
    (hids : (st.bookings.map (fun x => x.booking_id)).Nodup)
    (h : ledgerOK st) :
    ledgerOK (bookConference st now conf uid nid).2 ∧
    ledgerOK (confirmWaitlistBooking st now bid).2 ∧
    ledgerOK (cancelBooking st now bid2).2 ∧
    ledgerOK (handleExpiredWaitlistBookings st now) ∧
    ledgerOK (autoCancelForStartedConferences st now fails).1 :=
  ⟨ledger_bookConference st now conf uid nid h,
   ledger_confirm st now bid hids h,
   ledger_cancel st now bid2 hids h,
   ledger_handleExpired st now h,
   ledger_autoCancel st now fails h⟩

/-- Witness for C1 at a concrete state: the hypotheses hold and the ledger
invariant survives a book, a confirm, a cancel, an expiry sweep and an
auto-cancel sweep. -/
theorem capacity_ledger_preserved_witness :
    ((Wstate.bookings.map (fun x => x.booking_id)).Nodup ∧ ledgerOK Wstate) ∧
    (ledgerOK (bookConference Wstate 0 "c" "D" 4).2 ∧
     ledgerOK (confirmWaitlistBooking Wstate 0 2).2 ∧
     ledgerOK (cancelBooking Wstate 0 1).2 ∧
     ledgerOK (handleExpiredWaitlistBookings Wstate 60) ∧
     ledgerOK (autoCancelForStartedConferences Wstate 150 (fun _ => false)).1) :=
  ⟨⟨by decide, by decide⟩,
   capacity_ledger_preserved Wstate 0 "c" "D" 4 2 1 (fun _ => false)
     (by decide) (by decide) |>.1,
   (capacity_ledger_preserved Wstate 0 "c" "D" 4 2 1 (fun _ => false)
     (by decide) (by decide)).2.1,
   (capacity_ledger_preserved Wstate 0 "c" "D" 4 2 1 (fun _ => false)
     (by decide) (by decide)).2.2.1,
   (capacity_ledger_preserved Wstate 60 "c" "D" 4 2 1 (fun _ => false)
     (by decide) (by decide)).2.2.2.1,
   (capacity_ledger_preserved Wstate 150 "c" "D" 4 2 1 (fun _ => false)
     (by decide) (by decide)).2.2.2.2⟩

lemma forall₂_map_self {α : Type} (f : α → α) :
    ∀ l : List α, List.Forall₂ (fun a b => b = f a) l (l.map f)
  | [] => List.Forall₂.nil
  | x :: xs => List.Forall₂.cons rfl (forall₂_map_self f xs)

lemma map_congr_fn {α β : Type} {f g : α → β} :
    ∀ {l : List α}, (∀ x ∈ l, f x = g x) → l.map f = l.map g
  | [], _ => rfl
  | x :: xs, h => by
    simp only [List.map_cons, h x (List.mem_cons_self x xs),
      map_congr_fn (fun y hy => h y (List.mem_cons_of_mem x hy))]

lemma waitlistHead_of_waitlist_eq {st st' : DBState}
    (hw : st'.waitlist = st.waitlist) (cf : String) :
    waitlistHead st' cf = waitlistHead st cf := by
  unfold waitlistHead confEntries
  rw [hw]

lemma statuses_processNext (s : DBState) (now : Int) (cf : String) :
    (processNextInWaitlist s now cf).bookings.map (fun x => x.status)
      = s.bookings.map (fun x => x.status) := by
  unfold processNextInWaitlist
  cases waitlistHead s cf with
  | none => rfl
  | some w =>
    show (s.bookings.map fun b =>
        if b.booking_id == w.booking_id
        then { b with confirm_by := some (now + gracePeriod) } else b).map
          (fun x => x.status) = s.bookings.map (fun x => x.status)
    rw [List.map_map]
    apply map_congr_fn
    intro x _
    by_cases hx : x.booking_id = w.booking_id <;> simp [hx]

/-- C10: whenever promotion runs and the conference's waitlist is non-empty,
the head entry's booking gets `confirm_by = now + 1 hour` unconditionally —
any previous (even unexpired) deadline is overwritten — while every other
booking, the whole waitlist, and all conference rows are untouched. -/
theorem promotion_overwrites_head_deadline (st : DBState) (now : Int)
    (conf : String) (w : WaitlistEntry)
    (hw : waitlistHead st conf = some w) :
    (processNextInWaitlist st now conf).waitlist = st.waitlist ∧
    (processNextInWaitlist st now conf).conferences = st.conferences ∧
    List.Forall₂ (fun b b' : Booking =>
        b' = if b.booking_id == w.booking_id
          then { b with confirm_by := some (now + gracePeriod) } else b)
      st.bookings (processNextInWaitlist st now conf).bookings := by
  unfold processNextInWaitlist
  rw [hw]
  exact ⟨rfl, rfl, forall₂_map_self _ _⟩

/-- Witness for C10: in `Wstate` the head (booking 2) holds the earlier,
still-unexpired deadline 50, and promotion at time 0 overwrites it with
0 + 1 hour. -/
theorem promotion_overwrites_head_deadline_witness :
    (waitlistHead Wstate "c" = some ⟨"c", 2, 1, 0⟩ ∧
      (Wstate.bookings.map (fun b => b.confirm_by)) = [none, some 50, none]) ∧
    ((processNextInWaitlist Wstate 0 "c").waitlist = Wstate.waitlist ∧
     (processNextInWaitlist Wstate 0 "c").conferences = Wstate.conferences ∧
     List.Forall₂ (fun b b' : Booking =>
        b' = if b.booking_id == (2 : Nat)
          then { b with confirm_by := some (0 + gracePeriod) } else b)
      Wstate.bookings (processNextInWaitlist Wstate 0 "c").bookings) ∧
    ((processNextInWaitlist Wstate 0 "c").bookings.map (fun b => b.confirm_by))
      = [none, some 3600000, none] :=
  ⟨⟨by decide, by decide⟩,
   promotion_overwrites_head_deadline Wstate 0 "c" ⟨"c", 2, 1, 0⟩ (by decide),
   by decide⟩

/-- On a success outcome, `confirmWaitlistBooking` produced exactly the
composed success state; in particular the joined booking was WAITLISTED. -/
lemma confirm_success_state {st : DBState} {now : Int} {bid : Nat}
    {b : Booking} {c : Conference}
    (hlb : lookupBookingJoin st bid = some (b, c))
    (hsucc : (confirmWaitlistBooking st now bid).1 = .confirmed) :
    (confirmWaitlistBooking st now bid
      = (.confirmed,
         processNextInWaitlist
           (removeUserFromAllWaitlists
             (deleteWaitlistRow
               (adjustSlots (markConfirmed st bid) b.conference_name (-1)) bid)
             b.user_id (some b.conference_name))
           now b.conference_name)) ∧
    b.status = .waitlisted := by
  simp only [confirmWaitlistBooking, hlb] at hsucc ⊢
  split at hsucc
  next h1 => exact absurd hsucc (by simp)
  next h1 =>
    split at hsucc
    next h2 => exact absurd hsucc (by simp)
    next h2 =>
      split at hsucc
      next h3 => exact absurd hsucc (by simp)
      next h3 =>
        split at hsucc
        next h4 => exact absurd hsucc (by simp)
        next h4 =>
          rw [if_neg h1, if_neg h2, if_neg h3, if_neg h4]
          exact ⟨rfl, by simpa using h1⟩

/-- C6: a successful `confirmWaitlistBooking` always runs the promote step
on the same conference: if the conference's waitlist is non-empty afterwards
its head's booking carries `confirm_by = now + 1 hour` (no assumption on the
remaining capacity, which the confirm may just have brought to 0), and
promotion itself never changes a booking status, a conference row or the
waitlist. -/
theorem confirm_promotes_unconditionally (st : DBState) (now : Int) (bid : Nat)
    (b : Booking) (c : Conference)
    (hlb : lookupBookingJoin st bid = some (b, c))
    (hsucc : (confirmWaitlistBooking st now bid).1 = .confirmed) :
    (∀ w, waitlistHead (confirmWaitlistBooking st now bid).2 b.conference_name
        = some w →
      ∀ x ∈ (confirmWaitlistBooking st now bid).2.bookings,
        x.booking_id = w.booking_id →
          x.confirm_by = some (now + gracePeriod)) ∧
    (∀ (s : DBState) (cf : String),
      (processNextInWaitlist s now cf).conferences = s.conferences ∧
      (processNextInWaitlist s now cf).bookings.map (fun x => x.status)
        = s.bookings.map (fun x => x.status) ∧
      (processNextInWaitlist s now cf).waitlist = s.waitlist) := by
  refine ⟨?_, fun s cf =>
    ⟨conferences_processNext s now cf, statuses_processNext s now cf,
     waitlist_processNext s now cf⟩⟩
  rw [(confirm_success_state hlb hsucc).1]
  intro w hw x hx hid
  rw [waitlistHead_of_waitlist_eq (waitlist_processNext ..)] at hw
  revert hx
  simp only [processNextInWaitlist, hw, setConfirmBy]
  intro hx
  obtain ⟨y, _, rfl⟩ := List.mem_map.mp hx
  by_cases hy : y.booking_id == w.booking_id
  · simp [hy]
  · rw [if_neg (by simpa using hy)] at hid ⊢
    exact absurd (beq_iff_eq.mpr hid) (by simpa using hy)

/-- Witness state for C6: one seat left and two waitlisted bookings, so the
confirm of the first consumes the last seat and still promotes the second. -/
def W6 : DBState :=
  ⟨[⟨"k", 100, 200, 1, 1⟩], ["u", "v"],
   [⟨10, "k", "u", .waitlisted, 0, none⟩, ⟨11, "k", "v", .waitlisted, 0, none⟩],
   [⟨"k", 10, 1, 0⟩, ⟨"k", 11, 2, 0⟩]⟩

/-- Witness for C6: confirming booking 10 brings `available_slots` to 0 and
still stamps the new head (booking 11) with a one-hour deadline. -/
theorem confirm_promotes_unconditionally_witness :
    (lookupBookingJoin W6 10
        = some (⟨10, "k", "u", .waitlisted, 0, none⟩, ⟨"k", 100, 200, 1, 1⟩) ∧
     (confirmWaitlistBooking W6 0 10).1 = .confirmed ∧
     (getConferenceByName (confirmWaitlistBooking W6 0 10).2 "k").map
        (fun c => c.available_slots) = some 0) ∧
    ((∀ w, waitlistHead (confirmWaitlistBooking W6 0 10).2
          (⟨10, "k", "u", .waitlisted, 0, none⟩ : Booking).conference_name
        = some w →
      ∀ x ∈ (confirmWaitlistBooking W6 0 10).2.bookings,
        x.booking_id = w.booking_id →
          x.confirm_by = some (0 + gracePeriod)) ∧
    (∀ (s : DBState) (cf : String),
      (processNextInWaitlist s 0 cf).conferences = s.conferences ∧
      (processNextInWaitlist s 0 cf).bookings.map (fun x => x.status)
        = s.bookings.map (fun x => x.status) ∧
      (processNextInWaitlist s 0 cf).waitlist = s.waitlist)) :=
  ⟨⟨by decide, by decide, by decide⟩,
   confirm_promotes_unconditionally W6 0 10
     ⟨10, "k", "u", .waitlisted, 0, none⟩ ⟨"k", 100, 200, 1, 1⟩
     (by decide) (by decide)⟩

lemma sweepStarted_none_of_any (fails : String → Bool) :
    ∀ (l : List Conference) (st : DBState),
      l.any (fun c => fails c.name) = true → sweepStarted fails l st = none
  | [], _, h => by simp at h
  | c :: rest, st, h => by
    unfold sweepStarted
    by_cases hf : fails c.name = true
    · rw [if_pos hf]
    · rw [if_neg hf]
      rcases (by simpa using h :
          fails c.name = true ∨ rest.any (fun c => fails c.name) = true) with h' | h'
      · exact absurd h' hf
      · exact sweepStarted_none_of_any fails rest _ h'

lemma sweepStarted_isSome_of_none (fails : String → Bool) :
    ∀ (l : List Conference) (st : DBState),
      l.any (fun c => fails c.name) = false →
      (sweepStarted fails l st).isSome = true
  | [], _, _ => rfl
  | c :: rest, st, h => by
    have h' : fails c.name = false ∧ rest.any (fun c => fails c.name) = false := by
      simpa using h
    unfold sweepStarted
    rw [if_neg (by simp [h'.1])]
    exact sweepStarted_isSome_of_none fails rest _ h'.2

/-- C9 amended: `autoCancelForStartedConferences` runs the whole sweep in a
single transaction.  An infrastructure failure while processing any started
conference aborts and rolls back the entire pass — the other started
conferences are left unprocessed — and only a failure-free pass commits. -/
theorem sweep_single_transaction (st : DBState) (now : Int)
    (fails : String → Bool) :
    ((startedConferences st now).any (fun c => fails c.name) = true →
      autoCancelForStartedConferences st now fails = (st, false)) ∧
    ((startedConferences st now).any (fun c => fails c.name) = false →
      (autoCancelForStartedConferences st now fails).2 = true) := by
  constructor
  · intro hany
    unfold autoCancelForStartedConferences
    rw [sweepStarted_none_of_any fails _ st hany]
  · intro hnone
    have := sweepStarted_isSome_of_none fails (startedConferences st now) st hnone
    unfold autoCancelForStartedConferences
    split
    · rfl
    next heq => rw [heq] at this; exact absurd this (by simp)

/-- Counterexample state for C9: conferences "A" and "B" have both started;
"B" holds one WAITLISTED booking with a waitlist row. -/
def S9 : DBState :=
  ⟨[⟨"A", 0, 50, 1, 1⟩, ⟨"B", 0, 50, 1, 0⟩], ["u"],
   [⟨2, "B", "u", .waitlisted, 0, none⟩], [⟨"B", 2, 1, 0⟩]⟩

/-- C9 counterexample: when processing conference "A" fails, the sweep at
time 10 returns the rolled-back original state, so started conference "B"'s
WAITLISTED booking and waitlist row survive untouched — although a
failure-free sweep cancels that booking.  One conference's failure does
abort the processing of the others. -/
theorem sweep_failure_aborts_other_conferences :
    (startedConferences S9 10).map (fun c => c.name) = ["A", "B"] ∧
    autoCancelForStartedConferences S9 10 (fun n => n == "A") = (S9, false) ∧
    S9.bookings.map (fun b => (b.conference_name, b.status))
      = [("B", .waitlisted)] ∧
    S9.waitlist = [⟨"B", 2, 1, 0⟩] ∧
    (autoCancelForStartedConferences S9 10 (fun _ => false)).1.bookings
      = [⟨2, "B", "u", .canceled, 0, none⟩] := by decide

/-- Witness for the amended C9 at a concrete input: "A" failing rolls the
whole sweep back. -/
theorem sweep_single_transaction_witness :
    (startedConferences S9 10).any (fun c => (fun n => n == "A") c.name) = true ∧
    autoCancelForStartedConferences S9 10 (fun n => n == "A") = (S9, false) :=
  ⟨by decide, (sweep_single_transaction S9 10 (fun n => n == "A")).1 (by decide)⟩

lemma filter_map_comm {α : Type} {p : α → Bool} {f : α → α} :
    ∀ {l : List α}, (∀ x ∈ l, p (f x) = p x) →
      (l.map f).filter p = (l.filter p).map f
  | [], _ => rfl
  | x :: xs, h => by
    have hx := h x (List.mem_cons_self x xs)
    have hrec := filter_map_comm (fun y hy => h y (List.mem_cons_of_mem x hy))
    by_cases hpx : p x = true
    · simp [List.filter_cons, hx, hpx, hrec]
    · simp only [Bool.not_eq_true] at hpx
      simp [List.filter_cons, hx, hpx, hrec]

lemma confEntries_setWaitlistPos (st : DBState) (bid pos : Nat) (cf : String) :
    confEntries (setWaitlistPos st bid pos) cf
      = (confEntries st cf).map (fun w =>
          if w.booking_id == bid then { w with position := pos } else w) := by
  show (st.waitlist.map (fun w =>
      if w.booking_id == bid then { w with position := pos } else w)).filter
        (fun w => w.conference_name == cf)
    = ((st.waitlist.filter (fun w => w.conference_name == cf)).map (fun w =>
        if w.booking_id == bid then { w with position := pos } else w))
  apply filter_map_comm
  intro w _
  by_cases hw : w.booking_id = bid <;> simp [hw]

lemma confEntries_setConfirmBy (st : DBState) (bid : Nat) (v : Option Int)
    (cf : String) : confEntries (setConfirmBy st bid v) cf = confEntries st cf := rfl

lemma waitlistHead_singleton {st : DBState} {cf : String} {w : WaitlistEntry}
    (h : confEntries st cf = [w]) : waitlistHead st cf = some w := by
  unfold waitlistHead
  rw [h]
  rfl

/-- C3 amended: when booking `b` is the only expired WAITLISTED booking and
the sole waitlist entry `w` of its conference, `handleExpiredWaitlistBookings`
moves the entry to position `w.position + 1` — one past its own old position,
2 when it sat at 1 — (not back to position 1), clears and then re-stamps
`confirm_by` to `now + 1 hour` via the re-promotion, keeps every booking
status, and an immediate second run is a no-op. -/
theorem expiry_sole_entry_requeue (st : DBState) (now : Int)
    (b : Booking) (w : WaitlistEntry)
    (hexp : st.bookings.filter (isExpired now) = [b])
    (hw : confEntries st b.conference_name = [w])
    (hwid : w.booking_id = b.booking_id) :
    confEntries (handleExpiredWaitlistBookings st now) b.conference_name
        = [{ w with position := w.position + 1 }] ∧
    (∀ x ∈ (handleExpiredWaitlistBookings st now).bookings,
        x.booking_id = b.booking_id → x.confirm_by = some (now + gracePeriod)) ∧
    (handleExpiredWaitlistBookings st now).bookings.map (fun x => x.status)
        = st.bookings.map (fun x => x.status) ∧
    handleExpiredWaitlistBookings (handleExpiredWaitlistBookings st now) now
        = handleExpiredWaitlistBookings st now := by
  have hstep : handleExpiredWaitlistBookings st now
      = requeueExpired st now b.booking_id b.conference_name := by
    unfold handleExpiredWaitlistBookings
    rw [hexp]
    rfl
  have hmax : maxPosition st b.conference_name = w.position := by
    unfold maxPosition
    rw [hw]
    show max w.position 0 = w.position
    omega
  have hent : confEntries
      (setWaitlistPos st b.booking_id (maxPosition st b.conference_name + 1))
      b.conference_name = [{ w with position := w.position + 1 }] := by
    rw [confEntries_setWaitlistPos, hw, hmax]
    simp [hwid]
  have hhead : waitlistHead
      (setConfirmBy
        (setWaitlistPos st b.booking_id (maxPosition st b.conference_name + 1))
        b.booking_id none)
      b.conference_name = some { w with position := w.position + 1 } := by
    apply waitlistHead_singleton
    rw [confEntries_setConfirmBy]
    exact hent
  have hstate : requeueExpired st now b.booking_id b.conference_name
      = setConfirmBy
          (setConfirmBy
            (setWaitlistPos st b.booking_id
              (maxPosition st b.conference_name + 1))
            b.booking_id none)
          b.booking_id (some (now + gracePeriod)) := by
    unfold requeueExpired processNextInWaitlist
    rw [hhead]
    rw [show ({ w with position := w.position + 1 } : WaitlistEntry).booking_id
        = b.booking_id from hwid]
  have hbF : (setConfirmBy
        (setConfirmBy
          (setWaitlistPos st b.booking_id
            (maxPosition st b.conference_name + 1))
          b.booking_id none)
        b.booking_id (some (now + gracePeriod))).bookings
      = (st.bookings.map (fun x =>
          if x.booking_id == b.booking_id then { x with confirm_by := none }
          else x)).map (fun x =>
          if x.booking_id == b.booking_id
          then { x with confirm_by := some (now + gracePeriod) } else x) := rfl
  rw [hstep, hstate]
  refine ⟨?_, ?_, ?_, ?_⟩
  · rw [confEntries_setConfirmBy, confEntries_setConfirmBy]
    exact hent
  · intro x hx hid
    rw [hbF] at hx
    obtain ⟨y, hy, rfl⟩ := List.mem_map.mp hx
    obtain ⟨z, hz, rfl⟩ := List.mem_map.mp hy
    by_cases hzb : z.booking_id = b.booking_id
    · simp [hzb]
    · have hne : (z.booking_id == b.booking_id) = false := by simpa using hzb
      simp only [hne, Bool.false_eq_true, if_false] at hid ⊢
      exact absurd hid hzb
  · rw [hbF, List.map_map, List.map_map]
    apply map_congr_fn
    intro x _
    by_cases hx : x.booking_id = b.booking_id <;> simp [hx]
  · have hnil : (setConfirmBy
        (setConfirmBy
          (setWaitlistPos st b.booking_id
            (maxPosition st b.conference_name + 1))
          b.booking_id none)
        b.booking_id (some (now + gracePeriod))).bookings.filter
          (isExpired now) = [] := by
      rw [hbF, List.filter_eq_nil_iff]
      intro x hx
      obtain ⟨y, hy, rfl⟩ := List.mem_map.mp hx
      obtain ⟨z, hz, rfl⟩ := List.mem_map.mp hy
      by_cases hzb : z.booking_id = b.booking_id
      · simp only [hzb, beq_self_eq_true, if_true]
        simp only [isExpired, Bool.and_eq_true, not_and]
        intro _
        have hng : ¬ (now + gracePeriod < now) := by unfold gracePeriod; omega
        simpa using hng
      · have hne : (z.booking_id == b.booking_id) = false := by simpa using hzb
        simp only [hne, Bool.false_eq_true, if_false]
        intro hcontra
        have hmem : z ∈ st.bookings.filter (isExpired now) :=
          List.mem_filter.mpr ⟨hz, hcontra⟩
        rw [hexp] at hmem
        have hzeq : z = b := by simpa using hmem
        exact hzb (by rw [hzeq])
    unfold handleExpiredWaitlistBookings
    rw [hnil]
    rfl

/-- Counterexample state for C3: capacity full, booking 5 the sole
WAITLISTED booking at waitlist position 1, `confirm_by = 10` already past at
time 20. -/
def S3 : DBState :=
  ⟨[⟨"c", 100, 200, 1, 0⟩], ["u"],
   [⟨5, "c", "u", .waitlisted, 0, some 10⟩], [⟨"c", 5, 1, 0⟩]⟩

/-- C3 counterexample: running `handleExpiredWaitlistBookings` on the sole
expired entry does NOT leave it at position 1: the max is computed with the
entry itself still in the table, so the entry moves from position 1 to
position 2, while `confirm_by` is re-stamped to now + 1 hour. -/
theorem expiry_sole_entry_not_position_one :
    S3.bookings.filter (isExpired 20)
      = [⟨5, "c", "u", .waitlisted, 0, some 10⟩] ∧
    confEntries S3 "c" = [⟨"c", 5, 1, 0⟩] ∧
    (handleExpiredWaitlistBookings S3 20).waitlist = [⟨"c", 5, 2, 0⟩] ∧
    ¬ (∃ w ∈ (handleExpiredWaitlistBookings S3 20).waitlist, w.position = 1) ∧
    ((handleExpiredWaitlistBookings S3 20).bookings.map (fun x => x.confirm_by))
      = [some 3600020] := by decide

/-- Witness for the amended C3 at the concrete state `S3`. -/
theorem expiry_sole_entry_requeue_witness :
    (S3.bookings.filter (isExpired 20)
        = [⟨5, "c", "u", .waitlisted, 0, some 10⟩] ∧
     confEntries S3 "c" = [⟨"c", 5, 1, 0⟩]) ∧
    (confEntries (handleExpiredWaitlistBookings S3 20) "c" = [⟨"c", 5, 2, 0⟩] ∧
     (∀ x ∈ (handleExpiredWaitlistBookings S3 20).bookings,
        x.booking_id = 5 → x.confirm_by = some (20 + gracePeriod)) ∧
     (handleExpiredWaitlistBookings S3 20).bookings.map (fun x => x.status)
        = S3.bookings.map (fun x => x.status) ∧
     handleExpiredWaitlistBookings (handleExpiredWaitlistBookings S3 20) 20
        = handleExpiredWaitlistBookings S3 20) :=
  ⟨⟨by decide, by decide⟩,
   expiry_sole_entry_requeue S3 20 ⟨5, "c", "u", .waitlisted, 0, some 10⟩
     ⟨"c", 5, 1, 0⟩ (by decide) (by decide) (by decide)⟩

/-!  The five confirm preconditions, read off the joined row (spec §4.2). -/

/-- The joined row exists and the booking is WAITLISTED. -/
def joinedWaitlisted (st : DBState) (bid : Nat) : Bool :=
  match lookupBookingJoin st bid with
  | some (b, _) => b.status == .waitlisted
  | none => false

/-- The joined row exists and its conference has started (`start_time ≤ now`). -/
def joinedStarted (st : DBState) (now : Int) (bid : Nat) : Bool :=
  match lookupBookingJoin st bid with
  | some (_, c) => decide (c.start_time ≤ now)
  | none => false

/-- The joined row exists, `confirm_by` is set and has passed. -/
def joinedDeadlineOver (st : DBState) (now : Int) (bid : Nat) : Bool :=
  match lookupBookingJoin st bid with
  | some (b, _) =>
    (match b.confirm_by with
     | some d => decide (d < now)
     | none => false)
  | none => false

/-- The joined row exists and its conference has no free seat. -/
def joinedNoSlots (st : DBState) (bid : Nat) : Bool :=
  match lookupBookingJoin st bid with
  | some (_, c) => decide (c.available_slots ≤ 0)
  | none => false

lemma find?_unique_by_id :
    ∀ {l : List Booking} {bid : Nat} {b : Booking},
      (l.map (fun x => x.booking_id)).Nodup →
      l.find? (fun x => x.booking_id == bid) = some b →
      ∀ x ∈ l, x.booking_id = bid → x = b
  | [], _, _, _, hfind => by simp [List.find?] at hfind
  | y :: ys, bid, b, hnd, hfind => by
    rw [List.map_cons, List.nodup_cons] at hnd
    intro x hx hxid
    by_cases hy : y.booking_id == bid
    · have hyb : y = b := by
        have : some y = some b := by simpa [List.find?, hy] using hfind
        injection this
      rcases List.mem_cons.mp hx with rfl | hxs
      · exact hyb
      · exfalso
        apply hnd.1
        rw [show y.booking_id = bid from beq_iff_eq.mp hy, ← hxid]
        exact List.mem_map_of_mem _ hxs
    · have hyf : (y.booking_id == bid) = false := by simpa using hy
      have hfind' : ys.find? (fun x => x.booking_id == bid) = some b := by
        simpa [List.find?, hyf] using hfind
      rcases List.mem_cons.mp hx with rfl | hxs
      · exact absurd (beq_iff_eq.mpr hxid) (by simpa using hy)
      · exact find?_unique_by_id hnd.2 hfind' x hxs hxid

/-- C5: `confirmWaitlistBooking` fails exactly when one of the five
preconditions is violated — booking/conference row missing, status not
WAITLISTED, conference started, deadline set and passed, no free slot —
each with its own distinct outcome, checked in that order; any failure
leaves the state unchanged; if all five hold the call succeeds and the
booking's status is CONFIRMED afterwards. -/
theorem confirm_error_dispatch (st : DBState) (now : Int) (bid : Nat)
    (hids : (st.bookings.map (fun x => x.booking_id)).Nodup) :
    ((confirmWaitlistBooking st now bid).1 ≠ .confirmed →
      (confirmWaitlistBooking st now bid).2 = st) ∧
    ((confirmWaitlistBooking st now bid).1 = .bookingNotFound ↔
      lookupBookingJoin st bid = none) ∧
    ((confirmWaitlistBooking st now bid).1 = .notWaitlisted ↔
      (lookupBookingJoin st bid ≠ none ∧ joinedWaitlisted st bid = false)) ∧
    ((confirmWaitlistBooking st now bid).1 = .conferenceStarted ↔
      (joinedWaitlisted st bid = true ∧ joinedStarted st now bid = true)) ∧
    ((confirmWaitlistBooking st now bid).1 = .deadlinePassed ↔
      (joinedWaitlisted st bid = true ∧ joinedStarted st now bid = false ∧
       joinedDeadlineOver st now bid = true)) ∧
    ((confirmWaitlistBooking st now bid).1 = .noSlots ↔
      (joinedWaitlisted st bid = true ∧ joinedStarted st now bid = false ∧
       joinedDeadlineOver st now bid = false ∧ joinedNoSlots st bid = true)) ∧
    ((confirmWaitlistBooking st now bid).1 = .confirmed ↔
      (joinedWaitlisted st bid = true ∧ joinedStarted st now bid = false ∧
       joinedDeadlineOver st now bid = false ∧ joinedNoSlots st bid = false)) ∧
    ((confirmWaitlistBooking st now bid).1 = .confirmed →
      (confirmWaitlistBooking st now bid).2.bookings.countP
        (fun x => x.booking_id == bid && x.status == .confirmed) = 1) := by
  cases hj : lookupBookingJoin st bid with
  | none =>
    simp [confirmWaitlistBooking, hj, joinedWaitlisted, joinedStarted,
      joinedDeadlineOver, joinedNoSlots]
  | some bc =>
    obtain ⟨b, c⟩ := bc
    obtain ⟨hfind, hcf⟩ := lookupBookingJoin_eq_some hj
    have hbid : b.booking_id = bid := by
      have := List.find?_some hfind
      simpa using this
    by_cases h1 : b.status = .waitlisted
    case neg =>
      have h1b : (b.status != BookingStatus.waitlisted) = true := by
        simpa using h1
      simp [confirmWaitlistBooking, hj, joinedWaitlisted, joinedStarted,
        joinedDeadlineOver, joinedNoSlots, h1b, h1]
    case pos =>
      have h1b : (b.status != BookingStatus.waitlisted) = false := by
        simp [h1]
      by_cases h2 : c.start_time ≤ now
      case pos =>
        simp [confirmWaitlistBooking, hj, joinedWaitlisted, joinedStarted,
          joinedDeadlineOver, joinedNoSlots, h1b, h1, h2]
      case neg =>
        by_cases h3 : (match b.confirm_by with
          | some d => decide (d < now)
          | none => false) = true
        case pos =>
          simp [confirmWaitlistBooking, hj, joinedWaitlisted, joinedStarted,
            joinedDeadlineOver, joinedNoSlots, h1b, h1, h2, h3]
        case neg =>
          by_cases h4 : c.available_slots ≤ 0
          case pos =>
            simp [confirmWaitlistBooking, hj, joinedWaitlisted, joinedStarted,
              joinedDeadlineOver, joinedNoSlots, h1b, h1, h2, h3, h4]
          case neg =>
            -- success leaf
            have hsucc : (confirmWaitlistBooking st now bid).1 = .confirmed := by
              simp [confirmWaitlistBooking, hj, h1b, h2, h3, h4]
            refine ⟨fun hne => absurd hsucc hne, ?_, ?_, ?_, ?_, ?_, ?_, ?_⟩
            · simp [hsucc, hj]
            · simp [hsucc, hj, joinedWaitlisted, h1]
            · simp [hsucc, joinedWaitlisted, joinedStarted, hj, h2]
            · simp [hsucc, joinedWaitlisted, joinedStarted, joinedDeadlineOver,
                hj, h1, h2, h3]
            · simp [hsucc, joinedWaitlisted, joinedStarted, joinedDeadlineOver,
                joinedNoSlots, hj, h1, h2, h3, h4]
            · simp [hsucc, joinedWaitlisted, joinedStarted, joinedDeadlineOver,
                joinedNoSlots, hj, h1, h2, h3, h4]
            · intro _
              rw [(confirm_success_state hj hsucc).1]
              -- peel processNext, removeUser: both keep this count
              have hp1 : ∀ (s : DBState) (cf : String),
                  (processNextInWaitlist s now cf).bookings.countP
                    (fun x => x.booking_id == bid && x.status == .confirmed)
                  = s.bookings.countP
                    (fun x => x.booking_id == bid && x.status == .confirmed) := by
                intro s cf
                unfold processNextInWaitlist
                cases hh : waitlistHead s cf with
                | none => rfl
                | some w =>
                  show (s.bookings.map _).countP _ = _
                  apply countP_map_invariant
                  intro x _
                  by_cases hx : x.booking_id = w.booking_id <;> simp [hx]
              have hp2 : ∀ (s : DBState) (uid : String) (ex : Option String),
                  (removeUserFromAllWaitlists s uid ex).bookings.countP
                    (fun x => x.booking_id == bid && x.status == .confirmed)
                  = s.bookings.countP
                    (fun x => x.booking_id == bid && x.status == .confirmed) := by
                intro s uid ex
                show (s.bookings.map _).countP _ = _
                apply countP_map_invariant
                intro x _
                by_cases hx : displaceCond uid ex x
                · have hxw : x.status = .waitlisted := by
                    simp only [displaceCond, Bool.and_eq_true, beq_iff_eq] at hx
                    exact hx.1.2
                  have e1 : (BookingStatus.canceled == BookingStatus.confirmed)
                      = false := by decide
                  have e2 : (BookingStatus.waitlisted == BookingStatus.confirmed)
                      = false := by decide
                  simp [hx, hxw, e1, e2]
                · simp [hx]
              rw [hp1, hp2]
              show ((markConfirmed st bid).bookings).countP _ = 1
              have hkey := countP_map_update_unique
                (p := fun x => x.booking_id == bid && x.status == .confirmed)
                (g := fun x =>
                  { x with status := BookingStatus.confirmed, confirm_by := none })
                hids hfind
              have hz : st.bookings.countP
                  (fun x => x.booking_id == bid && x.status == .confirmed) = 0 := by
                rw [List.countP_eq_zero]
                intro x hx
                by_cases hxid : x.booking_id = bid
                · have hxb : x = b := find?_unique_by_id hids hfind x hx hxid
                  simp [hxb, h1]
                · simp [hxid]
              have hpb : (fun x => x.booking_id == bid && x.status == .confirmed) b
                  = false := by simp [h1]
              have hpgb : (fun x => x.booking_id == bid && x.status == .confirmed)
                  { b with status := BookingStatus.confirmed, confirm_by := none }
                  = true := by simp [hbid]
              rw [hpb, hpgb, hz] at hkey
              have hfinal : (st.bookings.map (fun x =>
                  if x.booking_id == bid
                  then ({ x with status := BookingStatus.confirmed, confirm_by := none } : Booking)
                  else x)).countP
                    (fun x => x.booking_id == bid && x.status == .confirmed)
                  + (if false = true then 1 else 0)
                  = 0 + (if true = true then 1 else 0) := hkey
              norm_num at hfinal
              rw [← List.countP_map] at hfinal
              have hmaps : (st.bookings.map (fun x =>
                  if x.booking_id == bid
                  then ({ x with status := BookingStatus.confirmed, confirm_by := none } : Booking)
                  else x))
                = (st.bookings.map (fun x =>
                  if x.booking_id = bid
                  then ({ x with status := BookingStatus.confirmed, confirm_by := none } : Booking)
                  else x)) :=
                map_congr_fn (fun x _ => by
                  by_cases hx : x.booking_id = bid <;> simp [hx])
              show (st.bookings.map (fun x =>
                  if x.booking_id == bid
                  then ({ x with status := BookingStatus.confirmed, confirm_by := none } : Booking)
                  else x)).countP
                    (fun x => x.booking_id == bid && x.status == .confirmed) = 1
              rw [hmaps]
              exact hfinal

/-- Witness for C5 at `Wstate` with booking 2 (a confirm that succeeds:
the five preconditions hold there). -/
theorem confirm_error_dispatch_witness :
    (Wstate.bookings.map (fun x => x.booking_id)).Nodup ∧
    (((confirmWaitlistBooking Wstate 0 2).1 ≠ .confirmed →
      (confirmWaitlistBooking Wstate 0 2).2 = Wstate) ∧
    ((confirmWaitlistBooking Wstate 0 2).1 = .bookingNotFound ↔
      lookupBookingJoin Wstate 2 = none) ∧
    ((confirmWaitlistBooking Wstate 0 2).1 = .notWaitlisted ↔
      (lookupBookingJoin Wstate 2 ≠ none ∧ joinedWaitlisted Wstate 2 = false)) ∧
    ((confirmWaitlistBooking Wstate 0 2).1 = .conferenceStarted ↔
      (joinedWaitlisted Wstate 2 = true ∧ joinedStarted Wstate 0 2 = true)) ∧
    ((confirmWaitlistBooking Wstate 0 2).1 = .deadlinePassed ↔
      (joinedWaitlisted Wstate 2 = true ∧ joinedStarted Wstate 0 2 = false ∧
       joinedDeadlineOver Wstate 0 2 = true)) ∧
    ((confirmWaitlistBooking Wstate 0 2).1 = .noSlots ↔
      (joinedWaitlisted Wstate 2 = true ∧ joinedStarted Wstate 0 2 = false ∧
       joinedDeadlineOver Wstate 0 2 = false ∧ joinedNoSlots Wstate 2 = true)) ∧
    ((confirmWaitlistBooking Wstate 0 2).1 = .confirmed ↔
      (joinedWaitlisted Wstate 2 = true ∧ joinedStarted Wstate 0 2 = false ∧
       joinedDeadlineOver Wstate 0 2 = false ∧ joinedNoSlots Wstate 2 = false)) ∧
    ((confirmWaitlistBooking Wstate 0 2).1 = .confirmed →
      (confirmWaitlistBooking Wstate 0 2).2.bookings.countP
        (fun x => x.booking_id == 2 && x.status == .confirmed) = 1)) :=
  ⟨by decide, confirm_error_dispatch Wstate 0 2 (by decide)⟩

lemma two_le_length_of_two_mem {α : Type} :
    ∀ {l : List α} {a b : α}, a ∈ l → b ∈ l → a ≠ b → 2 ≤ l.length
  | x :: xs, a, b, ha, hb, hne => by
    rcases List.mem_cons.mp ha with rfl | has
    · rcases List.mem_cons.mp hb with rfl | hbs
      · exact absurd rfl hne
      · have := List.length_pos_of_mem hbs
        simp only [List.length_cons]
        omega
    · have := List.length_pos_of_mem has
      simp only [List.length_cons]
      omega

/-- On a `confirmedBooking` outcome, `bookConference` took the confirmed
branch: the state is the composed confirmed-branch state and in particular
the duplicate-booking check was negative. -/
lemma book_confirmed_state {st : DBState} {now : Int} {conf uid : String}
    {nid : Nat}
    (hconf : (bookConference st now conf uid nid).1 = .confirmedBooking nid) :
    bookConference st now conf uid nid
      = (.confirmedBooking nid,
        removeUserFromAllWaitlists
          (adjustSlots
            { st with bookings := st.bookings ++ [⟨nid, conf, uid, .confirmed, now, none⟩] }
            conf (-1))
          uid (some conf)) ∧
      hasExistingBooking st uid conf = false := by
  cases hg : getConferenceByName st conf with
  | none => simp [bookConference, hg] at hconf
  | some c =>
    simp only [bookConference, hg] at hconf ⊢
    split at hconf
    next h1 => exact absurd hconf (by simp)
    next h1 =>
      split at hconf
      next h2 => exact absurd hconf (by simp)
      next h2 =>
        split at hconf
        next h3 => exact absurd hconf (by simp)
        next h3 =>
          split at hconf
          next h4 => exact absurd hconf (by simp)
          next h4 =>
            split at hconf
            next h5 =>
              rw [if_neg h1, if_neg h2, if_neg h3, if_neg h4, if_pos h5]
              exact ⟨rfl, by simpa using h3⟩
            next h5 => exact absurd hconf (by simp)

/-- C8: displacement (`removeUserFromAllWaitlists`) cancels exactly the
user's WAITLISTED bookings outside the excluded conference and deletes
exactly their waitlist rows; the surviving rows of every waitlist keep their
fields — positions included — verbatim (the survivors form a sublist, no
reorder happens).  After the confirmed branch of `bookConference` and after
a successful `confirmWaitlistBooking` the requester holds no WAITLISTED
booking at all and the whole waitlist shrank to a sublist of the original. -/
theorem displacement_effect_and_frame (st : DBState) (now : Int)
    (u ex conf uid : String) (nid bid : Nat) (b : Booking) (c : Conference) :
    ((removeUserFromAllWaitlists st u (some ex)).conferences = st.conferences) ∧
    ((removeUserFromAllWaitlists st u (some ex)).waitlist.Sublist st.waitlist) ∧
    (∀ w ∈ st.waitlist,
      (w ∈ (removeUserFromAllWaitlists st u (some ex)).waitlist ↔
        (displacedIds st u (some ex)).contains w.booking_id = false)) ∧
    (List.Forall₂ (fun x x' => x' =
        if displaceCond u (some ex) x then { x with status := BookingStatus.canceled }
        else x)
      st.bookings (removeUserFromAllWaitlists st u (some ex)).bookings) ∧
    ((bookConference st now conf uid nid).1 = .confirmedBooking nid →
      (bookConference st now conf uid nid).2.waitlist.Sublist st.waitlist ∧
      ∀ x ∈ (bookConference st now conf uid nid).2.bookings,
        x.user_id = uid → x.status ≠ .waitlisted) ∧
    (lookupBookingJoin st bid = some (b, c) →
      (confirmWaitlistBooking st now bid).1 = .confirmed →
      (st.bookings.filter (fun x => x.user_id == b.user_id &&
          x.conference_name == b.conference_name &&
          x.status != .canceled)).length ≤ 1 →
      (confirmWaitlistBooking st now bid).2.waitlist.Sublist st.waitlist ∧
      ∀ x ∈ (confirmWaitlistBooking st now bid).2.bookings,
        x.user_id = b.user_id → x.status ≠ .waitlisted) := by
  refine ⟨rfl, List.filter_sublist _, ?_, forall₂_map_self _ _, ?_, ?_⟩
  · intro w hw
    show w ∈ st.waitlist.filter _ ↔ _
    rw [List.mem_filter]
    constructor
    · intro ⟨_, hp⟩
      simpa using hp
    · intro hp
      exact ⟨hw, by simpa using hp⟩
  · -- book call site
    intro hconf
    obtain ⟨hstate, hdup⟩ := book_confirmed_state hconf
    rw [hstate]
    constructor
    · exact List.filter_sublist _
    · intro x hx hxu
      obtain ⟨y, hy, rfl⟩ := List.mem_map.mp hx
      by_cases hcond : displaceCond uid (some conf) y
      · simp [hcond]
      · rw [if_neg hcond] at hxu ⊢
        intro hyw
        rcases List.mem_append.mp hy with hys | hyB
        · -- y was an original WAITLISTED booking of uid not displaced:
          -- its conference must be `conf`, contradicting the duplicate check
          have hyconf : y.conference_name = conf := by
            by_contra hne
            exact hcond (by simp [displaceCond, hxu, hyw, hne])
          have : hasExistingBooking st uid conf = true := by
            unfold hasExistingBooking
            rw [List.any_eq_true]
            refine ⟨y, hys, ?_⟩
            simp [hxu, hyconf, hyw]
          rw [this] at hdup
          exact absurd hdup (by simp)
        · have : y = (⟨nid, conf, uid, .confirmed, now, none⟩ : Booking) := by
            simpa using hyB
          rw [this] at hyw
          exact absurd hyw (by simp)
  · -- confirm call site
    intro hlb hsucc huniq
    rw [(confirm_success_state hlb hsucc).1]
    obtain ⟨hfind, hcf⟩ := lookupBookingJoin_eq_some hlb
    have hbmem : b ∈ st.bookings := List.mem_of_find?_eq_some hfind
    have hbw : b.status = .waitlisted := (confirm_success_state hlb hsucc).2
    have hbid : b.booking_id = bid := by
      have := List.find?_some hfind
      simpa using this
    constructor
    · rw [waitlist_processNext]
      exact List.Sublist.trans (List.filter_sublist _) (List.filter_sublist _)
    · obtain ⟨pf, hpf, hpfprop⟩ := bookings_processNext
        (removeUserFromAllWaitlists
          (deleteWaitlistRow
            (adjustSlots (markConfirmed st bid) b.conference_name (-1)) bid)
          b.user_id (some b.conference_name)) now b.conference_name
      rw [hpf]
      intro x hx hxu
      obtain ⟨y, hy, rfl⟩ := List.mem_map.mp hx
      obtain ⟨hst, hcn, _, hui⟩ := hpfprop y
      rw [hst]
      rw [hui] at hxu
      -- y is in the displaced bookings of the pre-promotion state
      have hy' : y ∈ ((markConfirmed st bid).bookings.map (fun x =>
          if displaceCond b.user_id (some b.conference_name) x
          then { x with status := BookingStatus.canceled } else x)) := hy
      obtain ⟨z0, hz0, rfl⟩ := List.mem_map.mp hy'
      obtain ⟨z, hz, rfl⟩ := List.mem_map.mp hz0
      by_cases hzb : z.booking_id = bid
      · -- z got confirmed by the flip; displacement skips CONFIRMED bookings
        simp [hzb, displaceCond]
      · have hzf : (z.booking_id == bid) = false := by simpa using hzb
        simp only [hzf, Bool.false_eq_true, if_false] at hxu ⊢
        by_cases hdc : displaceCond b.user_id (some b.conference_name) z
        · simp [hdc]
        · rw [if_neg hdc] at hxu ⊢
          intro hzw
          have hzconf : z.conference_name = b.conference_name := by
            by_contra hne
            apply hdc
            simp [displaceCond, hxu, hzw, hne]
          have hzfilter : z ∈ st.bookings.filter (fun x =>
              x.user_id == b.user_id && x.conference_name == b.conference_name &&
              x.status != .canceled) := by
            rw [List.mem_filter]
            exact ⟨hz, by simp [hxu, hzconf, hzw]⟩
          have hbfilter : b ∈ st.bookings.filter (fun x =>
              x.user_id == b.user_id && x.conference_name == b.conference_name &&
              x.status != .canceled) := by
            rw [List.mem_filter]
            exact ⟨hbmem, by simp [hbw]⟩
          have hzneb : z ≠ b := by
            intro hzeq
            rw [hzeq, hbid] at hzb
            exact hzb rfl
          have := two_le_length_of_two_mem hzfilter hbfilter hzneb
          omega

/-- Witness for C8 at `Wstate`: booking user "D" takes the last free seat
(CONFIRMED) and confirming booking 2 of user "B" succeeds; in both result
states the requester holds no WAITLISTED booking and the waitlist shrank to
a sublist of the original (surviving rows verbatim, no reorder). -/
theorem displacement_effect_and_frame_witness :
    ((bookConference Wstate 0 "c" "D" 4).1 = .confirmedBooking 4 ∧
     lookupBookingJoin Wstate 2
        = some (⟨2, "c", "B", .waitlisted, 0, some 50⟩, ⟨"c", 100, 200, 2, 1⟩) ∧
     (confirmWaitlistBooking Wstate 0 2).1 = .confirmed) ∧
    ((bookConference Wstate 0 "c" "D" 4).2.waitlist.Sublist Wstate.waitlist ∧
      ∀ x ∈ (bookConference Wstate 0 "c" "D" 4).2.bookings,
        x.user_id = "D" → x.status ≠ .waitlisted) ∧
    ((confirmWaitlistBooking Wstate 0 2).2.waitlist.Sublist Wstate.waitlist ∧
      ∀ x ∈ (confirmWaitlistBooking Wstate 0 2).2.bookings,
        x.user_id = "B" → x.status ≠ .waitlisted) :=
  ⟨⟨by decide, by decide, by decide⟩,
   (displacement_effect_and_frame Wstate 0 "B" "c" "c" "D" 4 2
     ⟨2, "c", "B", .waitlisted, 0, some 50⟩
     ⟨"c", 100, 200, 2, 1⟩).2.2.2.2.1 (by decide),
   (displacement_effect_and_frame Wstate 0 "B" "c" "c" "D" 4 2
     ⟨2, "c", "B", .waitlisted, 0, some 50⟩
     ⟨"c", 100, 200, 2, 1⟩).2.2.2.2.2 (by decide) (by decide) (by decide)⟩

lemma foldr_max_perm {l₁ l₂ : List Nat} (h : l₁.Perm l₂) :
    l₁.foldr max 0 = l₂.foldr max 0 := by
  induction h with
  | nil => rfl
  | cons x _ ih => simp only [List.foldr_cons, ih]
  | swap x y l =>
    show max y (max x (l.foldr max 0)) = max x (max y (l.foldr max 0))
    omega
  | trans _ _ ih1 ih2 => rw [ih1, ih2]

lemma foldr_max_range' : ∀ (n k : Nat),
    (List.range' (k + 1) n).foldr max 0 = if n = 0 then 0 else k + n
  | 0, _ => rfl
  | n + 1, k => by
    show max (k + 1) ((List.range' (k + 2) n).foldr max 0) = _
    rw [foldr_max_range' n (k + 1)]
    cases n with
    | zero => simp
    | succ m =>
      simp only [Nat.succ_ne_zero, if_false]
      omega

/-- When the dense-position invariant holds, the waitlist max position is the
waitlist size. -/
lemma maxPosition_of_dense {st : DBState} {conf : String}
    (h : denseFor st conf) : maxPosition st conf = waitlistCount st conf := by
  have h1 : maxPosition st conf = (positionsOf st conf).foldr max 0 := by
    unfold maxPosition positionsOf
    rw [List.foldr_map]
  rw [h1, foldr_max_perm h]
  have h2 := foldr_max_range' (waitlistCount st conf) 0
  rw [show (0 + 1) = 1 from rfl] at h2
  rw [h2]
  cases waitlistCount st conf <;> simp

/-- C4 amended: booking at zero capacity (all five preconditions passing)
always yields WAITLISTED, never CONFIRMED, leaves every conference row —
`available_slots` included — unchanged, and reports position
`max waitlist position + 1`; that equals waitlist size + 1 exactly when the
dense-position invariant holds for the conference (the code computes
`COALESCE(MAX(position),0)+1`, not `COUNT+1`). -/
theorem book_zero_capacity (st : DBState) (now : Int) (conf uid : String)
    (nid : Nat) (c : Conference)
    (hg : getConferenceByName st conf = some c)
    (hu : userExists st uid = true)
    (hns : now < c.start_time)
    (hne : hasExistingBooking st uid conf = false)
    (hnc : hasConflictingBooking st uid c.start_time c.end_time = false)
    (hzero : c.available_slots = 0) :
    (bookConference st now conf uid nid).1
        = .waitlistedBooking nid (maxPosition st conf + 1) ∧
    (∀ p, (bookConference st now conf uid nid).1 ≠ .confirmedBooking p) ∧
    (bookConference st now conf uid nid).2.conferences = st.conferences ∧
    (denseFor st conf → maxPosition st conf + 1 = waitlistCount st conf + 1) := by
  have hbook : bookConference st now conf uid nid
      = (.waitlistedBooking nid (maxPosition st conf + 1),
        { st with
          bookings := st.bookings ++ [⟨nid, conf, uid, .waitlisted, now, none⟩],
          waitlist := st.waitlist
            ++ [⟨conf, nid, maxPosition st conf + 1, now⟩] }) := by
    simp only [bookConference, hg]
    rw [if_neg (by simp [hu]), if_neg (not_le.mpr hns), if_neg (by simp [hne]),
      if_neg (by simp [hnc]), if_neg (by omega)]
  refine ⟨by rw [hbook], ?_, by rw [hbook], ?_⟩
  · intro p
    rw [hbook]
    simp
  · intro hd
    rw [maxPosition_of_dense hd]

/-- The trace reaching the C4 counterexample state: one conference with a
single seat; A books it, B and C join the waitlist at positions 1 and 2, A
cancels (B gets promoted), B confirms (taking the seat back to 0 and
deleting B's waitlist row without reordering, so C stays at position 2). -/
def S4a : DBState := ⟨[⟨"c", 100, 200, 1, 1⟩], ["A", "B", "C", "D"], [], []⟩

def S4b : DBState := (bookConference S4a 0 "c" "A" 1).2

def S4c : DBState := (bookConference S4b 0 "c" "B" 2).2

def S4d : DBState := (bookConference S4c 0 "c" "C" 3).2

def S4e : DBState := (cancelBooking S4d 0 1).2

def S4f : DBState := (confirmWaitlistBooking S4e 0 2).2

/-- C4 counterexample: in the reached state the conference has
`available_slots = 0` and a waitlist of size 1 (the sole row sits at
position 2), and booking user D yields WAITLISTED at position 3 = max+1,
not waitlist size + 1 = 2 as the claim states. -/
theorem book_zero_capacity_position_not_size :
    (bookConference S4a 0 "c" "A" 1).1 = .confirmedBooking 1 ∧
    (bookConference S4b 0 "c" "B" 2).1 = .waitlistedBooking 2 1 ∧
    (bookConference S4c 0 "c" "C" 3).1 = .waitlistedBooking 3 2 ∧
    (cancelBooking S4d 0 1).1 = .canceled ∧
    (confirmWaitlistBooking S4e 0 2).1 = .confirmed ∧
    (getConferenceByName S4f "c").map (fun c => c.available_slots) = some 0 ∧
    waitlistCount S4f "c" = 1 ∧
    positionsOf S4f "c" = [2] ∧
    (bookConference S4f 0 "c" "D" 4).1 = .waitlistedBooking 4 3 ∧
    ¬ (bookConference S4f 0 "c" "D" 4).1
        = .waitlistedBooking 4 (waitlistCount S4f "c" + 1) := by decide

/-- Witness for the amended C4 at the concrete reached state `S4f`. -/
theorem book_zero_capacity_witness :
    (getConferenceByName S4f "c" = some ⟨"c", 100, 200, 1, 0⟩ ∧
     userExists S4f "D" = true ∧
     (0 : Int) < 100 ∧
     hasExistingBooking S4f "D" "c" = false ∧
     hasConflictingBooking S4f "D" 100 200 = false ∧
     (0 : Int) = 0) ∧
    ((bookConference S4f 0 "c" "D" 4).1
        = .waitlistedBooking 4 (maxPosition S4f "c" + 1) ∧
     (∀ p, (bookConference S4f 0 "c" "D" 4).1 ≠ .confirmedBooking p) ∧
     (bookConference S4f 0 "c" "D" 4).2.conferences = S4f.conferences ∧
     (denseFor S4f "c" → maxPosition S4f "c" + 1 = waitlistCount S4f "c" + 1)) :=
  ⟨⟨by decide, by decide, by decide, by decide, by decide, by decide⟩,
   book_zero_capacity S4f 0 "c" "D" 4 ⟨"c", 100, 200, 1, 0⟩
     (by decide) (by decide) (by decide) (by decide) (by decide) (by decide)⟩

/-!  Correctness of the `ROW_NUMBER`-style reorder.  -/

/-- The rank the join-back gives one row (its `new_position`, or its old
position when the row is not in the subquery). -/
def rankOf (ranks : List (Nat × Nat)) (w : WaitlistEntry) : Nat :=
  match ranks.find? (fun p => p.1 == w.booking_id) with
  | some p => p.2
  | none => w.position

lemma insertByCreatedAt_perm (w : WaitlistEntry) :
    ∀ l : List WaitlistEntry, (insertByCreatedAt w l).Perm (w :: l)
  | [] => List.Perm.refl _
  | x :: xs => by
    unfold insertByCreatedAt
    by_cases h : w.created_at < x.created_at
    · rw [if_pos h]
    · rw [if_neg h]
      exact List.Perm.trans ((insertByCreatedAt_perm w xs).cons x)
        (List.Perm.swap w x xs)

lemma sortByCreatedAt_perm : ∀ l : List WaitlistEntry,
    (sortByCreatedAt l).Perm l
  | [] => List.Perm.refl _
  | x :: xs =>
    List.Perm.trans (insertByCreatedAt_perm x (sortByCreatedAt xs))
      ((sortByCreatedAt_perm xs).cons x)

lemma mem_insertByCreatedAt {w y : WaitlistEntry} {l : List WaitlistEntry} :
    y ∈ insertByCreatedAt w l ↔ y = w ∨ y ∈ l := by
  rw [(insertByCreatedAt_perm w l).mem_iff]
  exact List.mem_cons

lemma pairwise_insertByCreatedAt {w : WaitlistEntry} :
    ∀ {l : List WaitlistEntry},
      l.Pairwise (fun a b => a.created_at ≤ b.created_at) →
      (insertByCreatedAt w l).Pairwise (fun a b => a.created_at ≤ b.created_at)
  | [], _ => List.Pairwise.cons (by simp) List.Pairwise.nil
  | x :: xs, h => by
    unfold insertByCreatedAt
    rw [List.pairwise_cons] at h
    by_cases hlt : w.created_at < x.created_at
    · rw [if_pos hlt]
      refine List.Pairwise.cons ?_ (List.Pairwise.cons h.1 h.2)
      intro y hy
      rcases List.mem_cons.mp hy with rfl | hys
      · omega
      · have := h.1 y hys
        omega
    · rw [if_neg hlt]
      refine List.Pairwise.cons ?_ (pairwise_insertByCreatedAt h.2)
      intro y hy
      rcases mem_insertByCreatedAt.mp hy with rfl | hys
      · omega
      · exact h.1 y hys

lemma pairwise_sortByCreatedAt : ∀ l : List WaitlistEntry,
    (sortByCreatedAt l).Pairwise (fun a b => a.created_at ≤ b.created_at)
  | [] => List.Pairwise.nil
  | x :: xs => pairwise_insertByCreatedAt (pairwise_sortByCreatedAt xs)

lemma map_rankOf_assign : ∀ (S : List WaitlistEntry) (k : Nat),
    (S.map (fun w => w.booking_id)).Nodup →
    S.map (rankOf (assignPositions k S)) = List.range' k S.length
  | [], _, _ => rfl
  | w :: ws, k, hnd => by
    rw [List.map_cons, List.nodup_cons] at hnd
    show rankOf (assignPositions k (w :: ws)) w ::
        ws.map (rankOf (assignPositions k (w :: ws))) = _
    have hhead : rankOf (assignPositions k (w :: ws)) w = k := by
      unfold rankOf assignPositions
      simp [List.find?]
    have htail : ws.map (rankOf (assignPositions k (w :: ws)))
        = ws.map (rankOf (assignPositions (k + 1) ws)) := by
      apply map_congr_fn
      intro y hy
      have hne : (w.booking_id == y.booking_id) = false := by
        refine beq_eq_false_iff_ne.mpr ?_
        intro hcontra
        exact hnd.1 (hcontra ▸ List.mem_map_of_mem _ hy)
      unfold rankOf
      rw [show assignPositions k (w :: ws)
          = (w.booking_id, k) :: assignPositions (k + 1) ws from rfl]
      simp [List.find?, hne]
    rw [hhead, htail, map_rankOf_assign ws (k + 1) hnd.2]
    rfl

lemma confEntries_reorder_self (st : DBState) (conf : String) :
    confEntries (reorderWaitlist st conf) conf
      = (confEntries st conf).map
          (applyRanks (assignPositions 1 (sortByCreatedAt (confEntries st conf)))
            conf) := by
  show (st.waitlist.map _).filter _ = _
  apply filter_map_comm
  intro w _
  unfold applyRanks
  by_cases h : (w.conference_name == conf) = true
  · simp only [h, if_true]
    cases (assignPositions 1 (sortByCreatedAt (confEntries st conf))).find?
        (fun p => p.1 == w.booking_id) <;> simp [h]
  · simp [h]

lemma confEntries_reorder_other {st : DBState} {conf cf : String}
    (h : cf ≠ conf) :
    confEntries (reorderWaitlist st conf) cf = confEntries st cf := by
  have h1 : confEntries (reorderWaitlist st conf) cf
      = (confEntries st cf).map
          (applyRanks (assignPositions 1 (sortByCreatedAt (confEntries st conf)))
            conf) := by
    show (st.waitlist.map _).filter _ = _
    apply filter_map_comm
    intro w _
    unfold applyRanks
    by_cases hc : (w.conference_name == conf) = true
    · simp only [hc, if_true]
      cases (assignPositions 1 (sortByCreatedAt (confEntries st conf))).find?
          (fun p => p.1 == w.booking_id) <;> simp [hc]
    · simp [hc]
  rw [h1]
  apply map_eq_self_of_eq
  intro w hw
  have hc : (w.conference_name == cf) = true := (List.mem_filter.mp hw).2
  have hne : (w.conference_name == conf) = false := by
    refine beq_eq_false_iff_ne.mpr ?_
    rw [beq_iff_eq.mp hc]
    exact h
  unfold applyRanks
  simp [hne]

lemma applyRanks_position_of_conf {ranks : List (Nat × Nat)} {conf : String}
    {w : WaitlistEntry} (h : (w.conference_name == conf) = true) :
    (applyRanks ranks conf w).position = rankOf ranks w := by
  unfold applyRanks rankOf
  simp only [h, if_true]
  cases ranks.find? (fun p => p.1 == w.booking_id) <;> rfl

/-- The reorder routine always re-establishes the dense-position invariant
for its conference, whatever the prior positions were (waitlist rows carry
unique booking ids, as the table's UNIQUE constraint guarantees). -/
lemma reorder_dense (st : DBState) (conf : String)
    (hnd : (st.waitlist.map (fun w => w.booking_id)).Nodup) :
    denseFor (reorderWaitlist st conf) conf := by
  have hndE : ((confEntries st conf).map (fun w => w.booking_id)).Nodup :=
    List.Nodup.sublist (List.Sublist.map _ (List.filter_sublist _)) hnd
  have hperm : (sortByCreatedAt (confEntries st conf)).Perm (confEntries st conf) :=
    sortByCreatedAt_perm _
  have hndS : ((sortByCreatedAt (confEntries st conf)).map
      (fun w => w.booking_id)).Nodup :=
    ((hperm.map _).nodup_iff).mpr hndE
  have hmapS := map_rankOf_assign (sortByCreatedAt (confEntries st conf)) 1 hndS
  unfold denseFor positionsOf waitlistCount
  rw [confEntries_reorder_self, List.length_map, List.map_map]
  have hpt : (confEntries st conf).map
      ((fun w => w.position) ∘
        applyRanks (assignPositions 1 (sortByCreatedAt (confEntries st conf))) conf)
      = (confEntries st conf).map
          (rankOf (assignPositions 1 (sortByCreatedAt (confEntries st conf)))) := by
    apply map_congr_fn
    intro w hw
    exact applyRanks_position_of_conf (List.mem_filter.mp hw).2
  rw [hpt]
  have hlen : (sortByCreatedAt (confEntries st conf)).length
      = (confEntries st conf).length := hperm.length_eq
  have hfin := (hperm.map
    (rankOf (assignPositions 1 (sortByCreatedAt (confEntries st conf))))).symm
  rw [hmapS, hlen] at hfin
  exact hfin

lemma rankOf_assign_head (w : WaitlistEntry) (ws : List WaitlistEntry)
    (k : Nat) : rankOf (assignPositions k (w :: ws)) w = k := by
  unfold rankOf
  rw [show assignPositions k (w :: ws)
      = (w.booking_id, k) :: assignPositions (k + 1) ws from rfl]
  simp [List.find?]

lemma rankOf_assign_tail (w : WaitlistEntry) (ws : List WaitlistEntry)
    (k : Nat) (y : WaitlistEntry) (hy : y ∈ ws)
    (hw : w.booking_id ∉ ws.map (fun v => v.booking_id)) :
    rankOf (assignPositions k (w :: ws)) y
      = rankOf (assignPositions (k + 1) ws) y := by
  have hne : (w.booking_id == y.booking_id) = false := by
    refine beq_eq_false_iff_ne.mpr ?_
    intro hcontra
    exact hw (hcontra ▸ List.mem_map_of_mem _ hy)
  unfold rankOf
  rw [show assignPositions k (w :: ws)
      = (w.booking_id, k) :: assignPositions (k + 1) ws from rfl]
  simp [List.find?, hne]

lemma rankOf_assign_ge : ∀ (S : List WaitlistEntry) (k : Nat),
    (S.map (fun w => w.booking_id)).Nodup →
    ∀ y ∈ S, k ≤ rankOf (assignPositions k S) y
  | [], _, _, y, hy => absurd hy (by simp)
  | w :: ws, k, hnd, y, hy => by
    rw [List.map_cons, List.nodup_cons] at hnd
    rcases List.mem_cons.mp hy with rfl | hys
    · rw [rankOf_assign_head]
    · rw [rankOf_assign_tail _ _ _ _ hys hnd.1]
      have := rankOf_assign_ge ws (k + 1) hnd.2 y hys
      omega

lemma rankOf_lt_imp_le : ∀ (S : List WaitlistEntry) (k : Nat),
    (S.map (fun w => w.booking_id)).Nodup →
    S.Pairwise (fun a b => a.created_at ≤ b.created_at) →
    ∀ u ∈ S, ∀ u' ∈ S,
      rankOf (assignPositions k S) u < rankOf (assignPositions k S) u' →
      u.created_at ≤ u'.created_at
  | [], _, _, _, u, hu, _, _, _ => absurd hu (by simp)
  | w :: ws, k, hnd, hpair, u, hu, u', hu', hlt => by
    rw [List.map_cons, List.nodup_cons] at hnd
    rw [List.pairwise_cons] at hpair
    rcases List.mem_cons.mp hu with rfl | hus
    · rcases List.mem_cons.mp hu' with rfl | hu's
      · exact absurd hlt (lt_irrefl _)
      · exact hpair.1 u' hu's
    · rcases List.mem_cons.mp hu' with rfl | hu's
      · exfalso
        rw [rankOf_assign_head, rankOf_assign_tail _ _ _ _ hus hnd.1] at hlt
        have := rankOf_assign_ge ws (k + 1) hnd.2 u hus
        omega
      · rw [rankOf_assign_tail _ _ _ _ hus hnd.1,
          rankOf_assign_tail _ _ _ _ hu's hnd.1] at hlt
        exact rankOf_lt_imp_le ws (k + 1) hnd.2 hpair.2 u hus u' hu's hlt

lemma applyRanks_created_at (ranks : List (Nat × Nat)) (conf : String)
    (v : WaitlistEntry) : (applyRanks ranks conf v).created_at = v.created_at := by
  unfold applyRanks
  by_cases h : (v.conference_name == conf) = true
  · simp only [h, if_true]
    cases ranks.find? (fun p => p.1 == v.booking_id) <;> rfl
  · simp [h]

lemma applyRanks_booking_id (ranks : List (Nat × Nat)) (conf : String)
    (v : WaitlistEntry) : (applyRanks ranks conf v).booking_id = v.booking_id := by
  unfold applyRanks
  by_cases h : (v.conference_name == conf) = true
  · simp only [h, if_true]
    cases ranks.find? (fun p => p.1 == v.booking_id) <;> rfl
  · simp [h]

/-- After a reorder, positions within the conference respect `created_at`
order: a smaller position means an earlier (or equal) arrival. -/
lemma reorder_order (st : DBState) (conf : String)
    (hnd : (st.waitlist.map (fun w => w.booking_id)).Nodup) :
    ∀ w ∈ confEntries (reorderWaitlist st conf) conf,
    ∀ w' ∈ confEntries (reorderWaitlist st conf) conf,
      w.position < w'.position → w.created_at ≤ w'.created_at := by
  intro w hw w' hw' hlt
  rw [confEntries_reorder_self] at hw hw'
  obtain ⟨u, hu, rfl⟩ := List.mem_map.mp hw
  obtain ⟨u', hu', rfl⟩ := List.mem_map.mp hw'
  have hcu : (u.conference_name == conf) = true := (List.mem_filter.mp hu).2
  have hcu' : (u'.conference_name == conf) = true := (List.mem_filter.mp hu').2
  rw [applyRanks_position_of_conf hcu, applyRanks_position_of_conf hcu'] at hlt
  rw [applyRanks_created_at, applyRanks_created_at]
  have hndE : ((confEntries st conf).map (fun w => w.booking_id)).Nodup :=
    List.Nodup.sublist (List.Sublist.map _ (List.filter_sublist _)) hnd
  have hperm : (sortByCreatedAt (confEntries st conf)).Perm (confEntries st conf) :=
    sortByCreatedAt_perm _
  have hndS : ((sortByCreatedAt (confEntries st conf)).map
      (fun w => w.booking_id)).Nodup :=
    ((hperm.map _).nodup_iff).mpr hndE
  exact rankOf_lt_imp_le (sortByCreatedAt (confEntries st conf)) 1 hndS
    (pairwise_sortByCreatedAt _) u (hperm.mem_iff.mpr hu) u'
    (hperm.mem_iff.mpr hu') hlt

lemma denseFor_congr {st st' : DBState} {cf : String}
    (h : confEntries st' cf = confEntries st cf) :
    denseFor st cf → denseFor st' cf := by
  unfold denseFor positionsOf waitlistCount
  rw [h]
  exact id

lemma confEntries_deleteRow_of_no_bid {st : DBState} {bid : Nat} {cf : String}
    (h : ∀ w ∈ confEntries st cf, w.booking_id ≠ bid) :
    confEntries (deleteWaitlistRow st bid) cf = confEntries st cf := by
  show (st.waitlist.filter (fun w => w.booking_id != bid)).filter
      (fun w => w.conference_name == cf) = _
  rw [List.filter_filter]
  apply List.filter_congr
  intro w hw
  by_cases hcw : (w.conference_name == cf) = true
  · have hne : w.booking_id ≠ bid := h w (List.mem_filter.mpr ⟨hw, hcw⟩)
    simp [hcw, hne]
  · simp [hcw]

lemma confEntries_deleteRow (st : DBState) (bid : Nat) (cf : String) :
    confEntries (deleteWaitlistRow st bid) cf
      = (confEntries st cf).filter (fun w => w.booking_id != bid) := by
  show (st.waitlist.filter (fun w => w.booking_id != bid)).filter
      (fun w => w.conference_name == cf)
    = (st.waitlist.filter (fun w => w.conference_name == cf)).filter
        (fun w => w.booking_id != bid)
  rw [List.filter_filter, List.filter_filter]
  apply List.filter_congr
  intro w _
  rw [Bool.and_comm]

lemma autoCancelStep_dense (s : DBState) (cn cf : String)
    (hd : denseFor s cf) : denseFor (autoCancelStep s cn) cf := by
  by_cases h : cf = cn
  · subst h
    unfold denseFor positionsOf waitlistCount
    have hnil : confEntries (autoCancelStep s cf) cf = [] := by
      show (s.waitlist.filter (fun w => w.conference_name != cf)).filter
          (fun w => w.conference_name == cf) = []
      rw [List.filter_eq_nil_iff]
      intro a ha
      have := (List.mem_filter.mp ha).2
      simpa using this
    rw [hnil]
    exact List.Perm.refl _
  · apply denseFor_congr ?_ hd
    show (s.waitlist.filter (fun w => w.conference_name != cn)).filter
        (fun w => w.conference_name == cf) = _
    rw [List.filter_filter]
    apply List.filter_congr
    intro w _
    by_cases hw : (w.conference_name == cf) = true
    · have hnc : (w.conference_name != cn) = true := by
        have hwc : w.conference_name = cf := beq_iff_eq.mp hw
        simp [hwc, h]
      simp [hw, hnc]
    · simp [hw]

lemma sweep_dense (fails : String → Bool) :
    ∀ (l : List Conference) (s s' : DBState) (cf : String),
      denseFor s cf → sweepStarted fails l s = some s' → denseFor s' cf
  | [], s, s', cf, hd, heq => by
    injection heq with h2
    exact h2 ▸ hd
  | c :: rest, s, s', cf, hd, heq => by
    unfold sweepStarted at heq
    by_cases hf : fails c.name = true
    · rw [if_pos hf] at heq
      exact absurd heq (by simp)
    · rw [if_neg hf] at heq
      exact sweep_dense fails rest _ s' cf (autoCancelStep_dense s c.name cf hd) heq

lemma denseWaitlisted_congr {st st' : DBState} {cf : String}
    (he : confEntries st' cf = confEntries st cf)
    (hc : waitlistedCount st' cf = waitlistedCount st cf) :
    denseWaitlisted st cf → denseWaitlisted st' cf := by
  unfold denseWaitlisted positionsOf
  rw [he, hc]
  exact id

lemma waitlistedCount_processNext (s : DBState) (now : Int) (cn cf : String) :
    waitlistedCount (processNextInWaitlist s now cn) cf = waitlistedCount s cf := by
  obtain ⟨f, hmap, hf⟩ := bookings_processNext s now cn
  unfold waitlistedCount
  rw [hmap]
  exact countP_map_invariant (fun x _ => by rw [(hf x).1, (hf x).2.1])

lemma waitlistedCount_adjustSlots (s : DBState) (cn : String) (d : Int) (cf : String) :
    waitlistedCount (adjustSlots s cn d) cf = waitlistedCount s cf := rfl

lemma waitlistedCount_deleteRow (s : DBState) (bid : Nat) (cf : String) :
    waitlistedCount (deleteWaitlistRow s bid) cf = waitlistedCount s cf := rfl

lemma waitlistedCount_reorder (s : DBState) (cn cf : String) :
    waitlistedCount (reorderWaitlist s cn) cf = waitlistedCount s cf := rfl

/-- Canceling the (unique) booking `bid` trades its WAITLISTED indicator for
nothing: the count drops by exactly the canceled booking's contribution. -/
lemma waitlistedCount_markCanceled {st : DBState} {bid : Nat} {b : Booking}
    (hbnd : (st.bookings.map (fun x => x.booking_id)).Nodup)
    (hfind : st.bookings.find? (fun x => x.booking_id == bid) = some b) (cf : String) :
    waitlistedCount (markCanceled st bid) cf
        + (if (b.conference_name == cf && b.status == BookingStatus.waitlisted) = true
           then 1 else 0)
      = waitlistedCount st cf := by
  have hkey := countP_map_update_unique
    (p := fun x => x.conference_name == cf && x.status == BookingStatus.waitlisted)
    (g := fun x => { x with status := BookingStatus.canceled }) hbnd hfind
  have hgoal : waitlistedCount (markCanceled st bid) cf
        + (if (b.conference_name == cf && b.status == BookingStatus.waitlisted) = true
           then 1 else 0)
      = waitlistedCount st cf
        + (if (b.conference_name == cf
              && BookingStatus.canceled == BookingStatus.waitlisted) = true
           then 1 else 0) := hkey
  have hfalse : (b.conference_name == cf
      && BookingStatus.canceled == BookingStatus.waitlisted) = false := by
    rw [show (BookingStatus.canceled == BookingStatus.waitlisted) = false by decide,
      Bool.and_false]
  rw [hfalse] at hgoal
  simp only [Bool.false_eq_true, if_false, Nat.add_zero] at hgoal
  omega

/-- Deleting the row of a booking id that occurs exactly once shortens the
list by exactly one. -/
lemma length_filter_ne_bid {bid : Nat} :
    ∀ {l : List WaitlistEntry},
      (l.map (fun w => w.booking_id)).Nodup →
      ∀ {w : WaitlistEntry}, w ∈ l → w.booking_id = bid →
      (l.filter (fun x => x.booking_id != bid)).length + 1 = l.length
  | [], _, _, hw, _ => absurd hw (List.not_mem_nil _)
  | x :: xs, hnd, w, hw, hwid => by
    rw [List.map_cons, List.nodup_cons] at hnd
    by_cases hx : (x.booking_id != bid) = true
    · have hxne : x.booking_id ≠ bid := by simpa using hx
      have hwtail : w ∈ xs := by
        cases List.mem_cons.mp hw with
        | inl h => exact absurd (h ▸ hwid) hxne
        | inr h => exact h
      have ih := length_filter_ne_bid hnd.2 hwtail hwid
      rw [List.filter_cons, if_pos hx]
      simp only [List.length_cons]
      omega
    · have hxeq : x.booking_id = bid := by simpa using hx
      rw [List.filter_cons, if_neg hx]
      have htail : xs.filter (fun y => y.booking_id != bid) = xs := by
        rw [List.filter_eq_self]
        intro y hy
        have hyne : y.booking_id ≠ x.booking_id := fun hc =>
          hnd.1 (hc ▸ List.mem_map_of_mem (fun z => z.booking_id) hy)
        have : y.booking_id ≠ bid := fun hc => hyne (hc.trans hxeq.symm)
        simpa using this
      rw [htail]
      rfl

lemma waitlistCount_reorder_self (s : DBState) (cn : String) :
    waitlistCount (reorderWaitlist s cn) cn = waitlistCount s cn := by
  unfold waitlistCount
  rw [confEntries_reorder_self, List.length_map]

lemma confEntries_autoCancelStep (s : DBState) (cn cf : String) :
    confEntries (autoCancelStep s cn) cf
      = if cf = cn then [] else confEntries s cf := by
  by_cases h : cf = cn
  · subst h
    rw [if_pos rfl]
    show (s.waitlist.filter (fun w => w.conference_name != cf)).filter
        (fun w => w.conference_name == cf) = []
    rw [List.filter_eq_nil_iff]
    intro a ha
    have := (List.mem_filter.mp ha).2
    simpa using this
  · rw [if_neg h]
    show (s.waitlist.filter (fun w => w.conference_name != cn)).filter
        (fun w => w.conference_name == cf) = _
    rw [List.filter_filter]
    apply List.filter_congr
    intro w _
    by_cases hw : (w.conference_name == cf) = true
    · have hnc : (w.conference_name != cn) = true := by
        have hwc : w.conference_name = cf := beq_iff_eq.mp hw
        simp [hwc, h]
      simp [hw, hnc]
    · simp [hw]

lemma waitlistedCount_autoCancelStep (s : DBState) (cn cf : String) :
    waitlistedCount (autoCancelStep s cn) cf
      = if cf = cn then 0 else waitlistedCount s cf := by
  by_cases h : cf = cn
  · subst h
    rw [if_pos rfl]
    show (s.bookings.map (fun b =>
        if b.conference_name == cf && b.status == BookingStatus.waitlisted then
          { b with status := BookingStatus.canceled } else b)).countP
        (fun b => b.conference_name == cf && b.status == BookingStatus.waitlisted) = 0
    rw [List.countP_eq_zero]
    intro y hy
    obtain ⟨a, _, rfl⟩ := List.mem_map.mp hy
    by_cases hb : (a.conference_name == cf && a.status == BookingStatus.waitlisted) = true
    · rw [if_pos hb]
      simp
    · rw [if_neg hb]
      exact hb
  · rw [if_neg h]
    show (s.bookings.map (fun b =>
        if b.conference_name == cn && b.status == BookingStatus.waitlisted then
          { b with status := BookingStatus.canceled } else b)).countP
        (fun b => b.conference_name == cf && b.status == BookingStatus.waitlisted)
      = s.bookings.countP
        (fun b => b.conference_name == cf && b.status == BookingStatus.waitlisted)
    apply countP_map_invariant
    intro a _
    by_cases hb : (a.conference_name == cn && a.status == BookingStatus.waitlisted) = true
    · rw [if_pos hb]
      have hb' := hb
      simp only [Bool.and_eq_true] at hb'
      have hcn : a.conference_name = cn := beq_iff_eq.mp hb'.1
      have hbcf : (a.conference_name == cf) = false :=
        beq_eq_false_iff_ne.mpr (fun hc => h (hc ▸ hcn))
      simp [hbcf]
    · rw [if_neg hb]

lemma autoCancelStep_denseW (s : DBState) (cn cf : String)
    (hd : denseWaitlisted s cf) : denseWaitlisted (autoCancelStep s cn) cf := by
  by_cases h : cf = cn
  · unfold denseWaitlisted positionsOf
    rw [confEntries_autoCancelStep, if_pos h, waitlistedCount_autoCancelStep, if_pos h]
    exact List.Perm.refl _
  · exact denseWaitlisted_congr
      (by rw [confEntries_autoCancelStep, if_neg h])
      (by rw [waitlistedCount_autoCancelStep, if_neg h]) hd

lemma sweep_denseW (fails : String → Bool) :
    ∀ (l : List Conference) (s s' : DBState) (cf : String),
      denseWaitlisted s cf → sweepStarted fails l s = some s' → denseWaitlisted s' cf
  | [], s, s', cf, hd, heq => by
    injection heq with h2
    exact h2 ▸ hd
  | c :: rest, s, s', cf, hd, heq => by
    unfold sweepStarted at heq
    by_cases hf : fails c.name = true
    · rw [if_pos hf] at heq
      exact absurd heq (by simp)
    · rw [if_neg hf] at heq
      exact sweep_denseW fails rest _ s' cf (autoCancelStep_denseW s c.name cf hd) heq

lemma maxPosition_of_denseW {st : DBState} {conf : String}
    (h : denseWaitlisted st conf) : maxPosition st conf = waitlistedCount st conf := by
  have h1 : maxPosition st conf = (positionsOf st conf).foldr max 0 := by
    unfold maxPosition positionsOf
    rw [List.foldr_map]
  rw [h1, foldr_max_perm h]
  have h2 := foldr_max_range' (waitlistedCount st conf) 0
  rw [show (0 + 1) = 1 from rfl] at h2
  rw [h2]
  cases waitlistedCount st conf <;> simp

/-- C2 amended: the spec's dense-position invariant — waitlist positions
exactly `{1, ..., N}` with `N` the number of WAITLISTED bookings of the
conference — is NOT preserved by every mutating operation.  It is preserved
by `cancelBooking` (for every conference: the WAITLISTED branch
re-establishes it via `reorderWaitlist`, the CONFIRMED branch changes
neither the rows nor the WAITLISTED count), by
`autoCancelForStartedConferences`, and by `bookConference` for the booked
conference — in each case given that waitlist rows and bookings carry
unique booking ids, each row's booking belongs to the row's conference, and
every WAITLISTED booking has a waitlist row.  (`confirmWaitlistBooking`'s
row deletion, `handleExpiredWaitlistBookings`' tail move and
`removeUserFromAllWaitlists`' deletions do NOT preserve it; see the
counterexample.) -/
theorem dense_positions_amended (st : DBState) (now : Int)
    (conf uid : String) (nid bid : Nat) (fails : String → Bool)
    (hwnd : (st.waitlist.map (fun w => w.booking_id)).Nodup)
    (hbnd : (st.bookings.map (fun b => b.booking_id)).Nodup)
    (hagree : ∀ w ∈ st.waitlist, ∀ bk ∈ st.bookings,
      bk.booking_id = w.booking_id → bk.conference_name = w.conference_name)
    (hrow : ∀ bk ∈ st.bookings, bk.status = .waitlisted →
      ∃ w ∈ st.waitlist, w.booking_id = bk.booking_id) :
    (∀ cf, denseWaitlisted st cf → denseWaitlisted (cancelBooking st now bid).2 cf) ∧
    (∀ cf, denseWaitlisted st cf →
      denseWaitlisted (autoCancelForStartedConferences st now fails).1 cf) ∧
    (denseWaitlisted st conf →
      denseWaitlisted (bookConference st now conf uid nid).2 conf) := by
  refine ⟨?_, ?_, ?_⟩
  · -- cancelBooking
    intro cf hd
    unfold cancelBooking
    split
    · exact hd
    next b c heq =>
      obtain ⟨hfind, hcf⟩ := lookupBookingJoin_eq_some heq
      have hbid : b.booking_id = bid := by
        have := List.find?_some hfind
        simpa using this
      split
      · exact hd
      split
      · exact hd
      split
      · -- prior CONFIRMED: rows and WAITLISTED count both unchanged
        rename_i hcanc hstart hisconf
        have hbc : b.status = .confirmed := by simpa using hisconf
        refine denseWaitlisted_congr ?_ ?_ hd
        · show confEntries _ cf = confEntries st cf
          unfold confEntries
          rw [waitlist_processNext]
          rfl
        · rw [waitlistedCount_processNext, waitlistedCount_adjustSlots]
          have hkey := waitlistedCount_markCanceled hbnd hfind cf
          have hpb : (b.conference_name == cf && b.status == BookingStatus.waitlisted)
              = false := by
            rw [hbc, show (BookingStatus.confirmed == BookingStatus.waitlisted) = false
              by decide, Bool.and_false]
          rw [hpb] at hkey
          simp only [Bool.false_eq_true, if_false, Nat.add_zero] at hkey
          exact hkey
      · -- prior WAITLISTED: deletion of the unique row, then dense reorder
        rename_i hcanc hstart hnotconf
        have hbw : b.status = .waitlisted := by
          cases hsb : b.status
          · exact absurd (by simp [hsb]) hnotconf
          · rfl
          · exact absurd (by simp [hsb]) hcanc
        obtain ⟨w, hwmem, hwid⟩ := hrow b (List.mem_of_find?_eq_some hfind) hbw
        have hwconf : w.conference_name = b.conference_name :=
          (hagree w hwmem b (List.mem_of_find?_eq_some hfind) hwid.symm).symm
        by_cases hcfc : cf = b.conference_name
        · subst hcfc
          have hden : denseFor
              (reorderWaitlist (deleteWaitlistRow (markCanceled st bid) bid)
                b.conference_name) b.conference_name :=
            reorder_dense _ b.conference_name
              (List.Nodup.sublist (List.Sublist.map _ (List.filter_sublist _)) hwnd)
          have hrowlen : waitlistCount (deleteWaitlistRow (markCanceled st bid) bid)
                b.conference_name + 1
              = waitlistCount st b.conference_name := by
            unfold waitlistCount
            rw [confEntries_deleteRow]
            have hwin : w ∈ confEntries (markCanceled st bid) b.conference_name := by
              show w ∈ st.waitlist.filter
                (fun x => x.conference_name == b.conference_name)
              exact List.mem_filter.mpr ⟨hwmem, by simp [hwconf]⟩
            have hndE : ((confEntries (markCanceled st bid) b.conference_name).map
                (fun x => x.booking_id)).Nodup := by
              show ((st.waitlist.filter _).map _).Nodup
              exact List.Nodup.sublist (List.Sublist.map _ (List.filter_sublist _)) hwnd
            exact length_filter_ne_bid hndE hwin (hwid.trans hbid)
          have hwc : waitlistedCount (reorderWaitlist
                (deleteWaitlistRow (markCanceled st bid) bid) b.conference_name)
                b.conference_name + 1
              = waitlistedCount st b.conference_name := by
            rw [waitlistedCount_reorder, waitlistedCount_deleteRow]
            have hkey := waitlistedCount_markCanceled hbnd hfind b.conference_name
            have hpb : (b.conference_name == b.conference_name
                && b.status == BookingStatus.waitlisted) = true := by
              simp [hbw]
            rw [hpb] at hkey
            simpa using hkey
          have hlen0 : waitlistCount st b.conference_name
              = waitlistedCount st b.conference_name := by
            have hle := hd.length_eq
            unfold positionsOf at hle
            rw [List.length_map, List.length_range'] at hle
            exact hle
          have hfinal : waitlistCount (reorderWaitlist
                (deleteWaitlistRow (markCanceled st bid) bid) b.conference_name)
                b.conference_name
              = waitlistedCount (reorderWaitlist
                (deleteWaitlistRow (markCanceled st bid) bid) b.conference_name)
                b.conference_name := by
            rw [waitlistCount_reorder_self]
            omega
          unfold denseWaitlisted
          rw [← hfinal]
          exact hden
        · refine denseWaitlisted_congr ?_ ?_ hd
          · rw [confEntries_reorder_other hcfc]
            refine (confEntries_deleteRow_of_no_bid ?_).trans rfl
            intro x hx hxbid
            have hb : b.conference_name = x.conference_name :=
              hagree x (List.mem_filter.mp hx).1 b (List.mem_of_find?_eq_some hfind)
                (hbid.trans hxbid.symm)
            have hxc : x.conference_name = cf := beq_iff_eq.mp (List.mem_filter.mp hx).2
            exact hcfc ((hxc ▸ hb).symm)
          · rw [waitlistedCount_reorder, waitlistedCount_deleteRow]
            have hkey := waitlistedCount_markCanceled hbnd hfind cf
            have hpb : (b.conference_name == cf && b.status == BookingStatus.waitlisted)
                = false := by
              rw [show (b.conference_name == cf) = false from
                beq_eq_false_iff_ne.mpr (fun hc => hcfc hc.symm), Bool.false_and]
            rw [hpb] at hkey
            simp only [Bool.false_eq_true, if_false, Nat.add_zero] at hkey
            exact hkey
  · -- auto-cancel sweep
    intro cf hd
    unfold autoCancelForStartedConferences
    split
    next s heq => exact sweep_denseW fails _ st s cf hd heq
    next heq => exact hd
  · -- bookConference, for the booked conference
    intro hd
    unfold bookConference
    split
    · exact hd
    split
    · exact hd
    split
    · exact hd
    split
    · exact hd
    split
    · exact hd
    split
    · -- CONFIRMED branch: displacement touches neither the booked
      -- conference's rows nor its WAITLISTED count
      refine denseWaitlisted_congr ?_ ?_ hd
      · show (st.waitlist.filter (fun w =>
            !((displacedIds
                (adjustSlots
                  { st with bookings := st.bookings
                      ++ [⟨nid, conf, uid, .confirmed, now, none⟩] }
                  conf (-1))
                uid (some conf)).contains w.booking_id))).filter
              (fun w => w.conference_name == conf)
          = st.waitlist.filter (fun w => w.conference_name == conf)
        rw [List.filter_filter]
        apply List.filter_congr
        intro w hw
        by_cases hcw : (w.conference_name == conf) = true
        · have hnotmem : w.booking_id ∉
              ((st.bookings ++ [(⟨nid, conf, uid, .confirmed, now, none⟩ : Booking)]).filter
                (displaceCond uid (some conf))).map (fun bk => bk.booking_id) := by
            intro hmem
            obtain ⟨bk, hbk, hbkid⟩ := List.mem_map.mp hmem
            rw [List.mem_filter] at hbk
            rcases List.mem_append.mp hbk.1 with hbks | hbkB
            · have hcond := hbk.2
              simp only [displaceCond, Bool.and_eq_true, beq_iff_eq,
                bne_iff_ne] at hcond
              exact hcond.2 ((hagree w hw bk hbks hbkid).trans (beq_iff_eq.mp hcw))
            · have hbkeq : bk = (⟨nid, conf, uid, .confirmed, now, none⟩ : Booking) := by
                simpa using hbkB
              have hcond := hbk.2
              rw [hbkeq] at hcond
              simp [displaceCond] at hcond
          simp [hcw]
          exact hnotmem
        · simp [hcw]
      · show ((st.bookings
            ++ [(⟨nid, conf, uid, BookingStatus.confirmed, now, none⟩ : Booking)]).map
            (fun x => if displaceCond uid (some conf) x
              then { x with status := BookingStatus.canceled } else x)).countP
            (fun x => x.conference_name == conf && x.status == BookingStatus.waitlisted)
          = st.bookings.countP
            (fun x => x.conference_name == conf && x.status == BookingStatus.waitlisted)
        have hinv : ∀ x ∈ st.bookings
            ++ [(⟨nid, conf, uid, BookingStatus.confirmed, now, none⟩ : Booking)],
            ((if displaceCond uid (some conf) x
                then { x with status := BookingStatus.canceled } else x).conference_name
                  == conf
              && (if displaceCond uid (some conf) x
                then { x with status := BookingStatus.canceled } else x).status
                  == BookingStatus.waitlisted)
            = (x.conference_name == conf && x.status == BookingStatus.waitlisted) := by
          intro x _
          by_cases hc : displaceCond uid (some conf) x = true
          · rw [if_pos hc]
            have hx := hc
            simp only [displaceCond, Bool.and_eq_true, bne_iff_ne] at hx
            have hne : (x.conference_name == conf) = false :=
              beq_eq_false_iff_ne.mpr hx.2
            simp [hne]
          · rw [if_neg hc]
        rw [countP_map_invariant hinv, List.countP_append]
        have hB : ((⟨nid, conf, uid, BookingStatus.confirmed, now,
            none⟩ : Booking).conference_name == conf
            && (⟨nid, conf, uid, BookingStatus.confirmed, now,
              none⟩ : Booking).status == BookingStatus.waitlisted) = false := by
          simp
        simp [List.countP_cons, hB]
    · -- WAITLISTED branch: the appended row extends a dense prefix and the
      -- appended booking raises the WAITLISTED count by one
      unfold denseWaitlisted positionsOf
      have happ : confEntries
          { st with
            bookings := st.bookings ++ [⟨nid, conf, uid, .waitlisted, now, none⟩],
            waitlist := st.waitlist
              ++ [⟨conf, nid, maxPosition st conf + 1, now⟩] } conf
          = confEntries st conf ++ [⟨conf, nid, maxPosition st conf + 1, now⟩] := by
        show (st.waitlist
            ++ [(⟨conf, nid, maxPosition st conf + 1, now⟩ : WaitlistEntry)]).filter
            (fun w => w.conference_name == conf) = _
        rw [List.filter_append]
        simp [confEntries]
      have hcnt : waitlistedCount
          { st with
            bookings := st.bookings ++ [⟨nid, conf, uid, .waitlisted, now, none⟩],
            waitlist := st.waitlist
              ++ [⟨conf, nid, maxPosition st conf + 1, now⟩] } conf
          = waitlistedCount st conf + 1 := by
        show (st.bookings
            ++ [(⟨nid, conf, uid, BookingStatus.waitlisted, now, none⟩ : Booking)]).countP
            (fun x => x.conference_name == conf && x.status == BookingStatus.waitlisted)
          = st.bookings.countP
            (fun x => x.conference_name == conf && x.status == BookingStatus.waitlisted)
            + 1
        rw [List.countP_append]
        simp
      rw [happ, List.map_append, hcnt]
      rw [maxPosition_of_denseW hd]
      show (positionsOf st conf
          ++ [waitlistedCount st conf + 1]).Perm
        (List.range' 1 (waitlistedCount st conf + 1))
      rw [List.range'_concat]
      refine List.Perm.append hd ?_
      rw [show 1 + 1 * waitlistedCount st conf = waitlistedCount st conf + 1 by omega]

/-- Counterexample state for the displacement part of C2: user "u" is at
position 1 of conference "d"'s two-entry waitlist and books the
non-overlapping conference "c", which has a free seat. -/
def S2a : DBState :=
  ⟨[⟨"c", 100, 200, 1, 1⟩, ⟨"d", 300, 400, 1, 0⟩], ["u", "v"],
   [⟨1, "d", "u", .waitlisted, 0, none⟩, ⟨2, "d", "v", .waitlisted, 0, none⟩],
   [⟨"d", 1, 1, 0⟩, ⟨"d", 2, 2, 0⟩]⟩

/-- C2 counterexample: the dense-position invariant (positions `{1..N}`,
`N` the number of WAITLISTED bookings) is violated by three of the mutating
operations the claim covers.  (1) `handleExpiredWaitlistBookings` requeues
the sole expired entry of `S3` to position 2, leaving positions {2} for one
WAITLISTED booking.  (2) a successful `confirmWaitlistBooking` on the head
of a two-entry waitlist deletes its row without reordering, leaving
positions {2} for one remaining WAITLISTED booking.  (3) the displacement
run by `bookConference`'s confirmed branch deletes user "u"'s row from
conference "d"'s waitlist without reordering, leaving positions {2} for the
one WAITLISTED booking left there. -/
theorem dense_positions_counterexample :
    (denseWaitlisted S3 "c" ∧
      ¬ denseWaitlisted (handleExpiredWaitlistBookings S3 20) "c") ∧
    (denseWaitlisted S4e "c" ∧ (confirmWaitlistBooking S4e 0 2).1 = .confirmed ∧
      ¬ denseWaitlisted (confirmWaitlistBooking S4e 0 2).2 "c") ∧
    (denseWaitlisted S2a "d" ∧
      (bookConference S2a 0 "c" "u" 3).1 = .confirmedBooking 3 ∧
      ¬ denseWaitlisted (bookConference S2a 0 "c" "u" 3).2 "d") := by decide

/-- Witness for the amended C2 at `Wstate`. -/
theorem dense_positions_amended_witness :
    ((Wstate.waitlist.map (fun w => w.booking_id)).Nodup ∧
     (Wstate.bookings.map (fun b => b.booking_id)).Nodup ∧
     (∀ w ∈ Wstate.waitlist, ∀ bk ∈ Wstate.bookings,
        bk.booking_id = w.booking_id → bk.conference_name = w.conference_name) ∧
     (∀ bk ∈ Wstate.bookings, bk.status = .waitlisted →
        ∃ w ∈ Wstate.waitlist, w.booking_id = bk.booking_id)) ∧
    ((∀ cf, denseWaitlisted Wstate cf →
        denseWaitlisted (cancelBooking Wstate 0 1).2 cf) ∧
     (∀ cf, denseWaitlisted Wstate cf →
        denseWaitlisted (autoCancelForStartedConferences Wstate 0 (fun _ => false)).1 cf) ∧
     (denseWaitlisted Wstate "c" →
        denseWaitlisted (bookConference Wstate 0 "c" "D" 4).2 "c")) :=
  ⟨⟨by decide, by decide, by decide, by decide⟩,
   dense_positions_amended Wstate 0 "c" "D" 4 1 (fun _ => false)
     (by decide) (by decide) (by decide) (by decide)⟩

lemma cancel_state_confirmed {st : DBState} {now : Int} {bid : Nat}
    {b : Booking} {c : Conference}
    (hlb : lookupBookingJoin st bid = some (b, c))
    (hnost : now < c.start_time) (hbc : b.status = .confirmed) :
    cancelBooking st now bid
      = (.canceled,
        processNextInWaitlist
          (adjustSlots (markCanceled st bid) b.conference_name 1)
          now b.conference_name) := by
  simp only [cancelBooking, hlb]
  rw [if_neg (by simp [hbc]), if_neg (not_le.mpr hnost), if_pos (by simp [hbc])]

lemma cancel_state_waitlisted {st : DBState} {now : Int} {bid : Nat}
    {b : Booking} {c : Conference}
    (hlb : lookupBookingJoin st bid = some (b, c))
    (hnost : now < c.start_time) (hbw : b.status = .waitlisted) :
    cancelBooking st now bid
      = (.canceled,
        reorderWaitlist (deleteWaitlistRow (markCanceled st bid) bid)
          b.conference_name) := by
  simp only [cancelBooking, hlb]
  rw [if_neg (by simp [hbw]), if_neg (not_le.mpr hnost), if_neg (by simp [hbw])]

lemma getConferenceByName_adjustSlots (st : DBState) (cn : String) (d : Int) :
    getConferenceByName (adjustSlots st cn d) cn
      = (getConferenceByName st cn).map
          (fun cc => { cc with available_slots := cc.available_slots + d }) := by
  show (st.conferences.map (fun cc =>
      if cc.name == cn then { cc with available_slots := cc.available_slots + d }
      else cc)).find? (fun cc => cc.name == cn)
    = (st.conferences.find? (fun cc => cc.name == cn)).map
        (fun cc => { cc with available_slots := cc.available_slots + d })
  induction st.conferences with
  | nil => rfl
  | cons x xs ih =>
    by_cases hx : (x.name == cn) = true
    · simp [List.find?, hx]
    · simp only [List.map_cons]
      rw [if_neg (by simpa using hx)]
      simp only [List.find?, hx]
      exact ih

lemma getConferenceByName_congr {st st' : DBState} {nm : String}
    (h : st'.conferences = st.conferences) :
    getConferenceByName st' nm = getConferenceByName st nm := by
  unfold getConferenceByName
  rw [h]

/-- C7: canceling under a not-yet-started conference.  With prior status
CONFIRMED: outcome CANCELED, the booking becomes CANCELED, the conference
row gains exactly one `available_slots`, the waitlist is untouched, and the
waitlist head (if any) receives `confirm_by = now + 1 hour`.  With prior
status WAITLISTED: outcome CANCELED, the booking becomes CANCELED, the
conference rows — capacity included — are untouched, the booking's waitlist
row is gone, and the remaining rows of its conference are exactly the old
ones (same ids and `created_at`s) repositioned densely `1..N` in
`created_at` order. -/
theorem cancel_postconditions (st : DBState) (now : Int) (bid : Nat)
    (b : Booking) (c : Conference)
    (hlb : lookupBookingJoin st bid = some (b, c))
    (hnost : now < c.start_time)
    (hwnd : (st.waitlist.map (fun w => w.booking_id)).Nodup) :
    (b.status = .confirmed →
      (cancelBooking st now bid).1 = .canceled ∧
      (∀ x ∈ (cancelBooking st now bid).2.bookings,
        x.booking_id = bid → x.status = .canceled) ∧
      getConferenceByName (cancelBooking st now bid).2 b.conference_name
        = (getConferenceByName st b.conference_name).map
            (fun cc => { cc with available_slots := cc.available_slots + 1 }) ∧
      (cancelBooking st now bid).2.waitlist = st.waitlist ∧
      (∀ w, waitlistHead st b.conference_name = some w →
        ∀ x ∈ (cancelBooking st now bid).2.bookings,
          x.booking_id = w.booking_id →
            x.confirm_by = some (now + gracePeriod))) ∧
    (b.status = .waitlisted →
      (cancelBooking st now bid).1 = .canceled ∧
      (∀ x ∈ (cancelBooking st now bid).2.bookings,
        x.booking_id = bid → x.status = .canceled) ∧
      (cancelBooking st now bid).2.conferences = st.conferences ∧
      (∀ w ∈ (cancelBooking st now bid).2.waitlist, w.booking_id ≠ bid) ∧
      denseFor (cancelBooking st now bid).2 b.conference_name ∧
      (∀ w ∈ confEntries (cancelBooking st now bid).2 b.conference_name,
       ∀ w' ∈ confEntries (cancelBooking st now bid).2 b.conference_name,
        w.position < w'.position → w.created_at ≤ w'.created_at) ∧
      (confEntries (cancelBooking st now bid).2 b.conference_name).map
          (fun w => (w.booking_id, w.created_at))
        = ((confEntries st b.conference_name).filter
            (fun w => w.booking_id != bid)).map
            (fun w => (w.booking_id, w.created_at))) := by
  constructor
  · -- prior CONFIRMED
    intro hbc
    rw [cancel_state_confirmed hlb hnost hbc]
    obtain ⟨pf, hpf, hpfprop⟩ := bookings_processNext
      (adjustSlots (markCanceled st bid) b.conference_name 1) now
      b.conference_name
    refine ⟨rfl, ?_, ?_, ?_, ?_⟩
    · intro x hx hxid
      rw [show (ConfBooking.CancelOutcome.canceled,
          processNextInWaitlist
            (adjustSlots (markCanceled st bid) b.conference_name 1)
            now b.conference_name).2.bookings
        = (processNextInWaitlist
            (adjustSlots (markCanceled st bid) b.conference_name 1)
            now b.conference_name).bookings from rfl] at hx
      rw [hpf] at hx
      obtain ⟨y, hy, rfl⟩ := List.mem_map.mp hx
      obtain ⟨hst, _, hid, _⟩ := hpfprop y
      rw [hst]
      rw [hid] at hxid
      have hy' : y ∈ (st.bookings.map (fun z =>
          if z.booking_id == bid then { z with status := BookingStatus.canceled }
          else z)) := hy
      obtain ⟨z, hz, rfl⟩ := List.mem_map.mp hy'
      by_cases hzb : z.booking_id = bid
      · simp [hzb]
      · rw [if_neg (by simpa using hzb)] at hxid ⊢
        exact absurd hxid hzb
    · rw [getConferenceByName_congr (conferences_processNext ..),
        getConferenceByName_adjustSlots]
      rfl
    · rw [waitlist_processNext]
      rfl
    · intro w hw x hx hxid
      have hw' : waitlistHead
          (adjustSlots (markCanceled st bid) b.conference_name 1)
          b.conference_name = some w :=
        (@waitlistHead_of_waitlist_eq st
          (adjustSlots (markCanceled st bid) b.conference_name 1)
          rfl b.conference_name).trans hw
      revert hx
      show x ∈ (processNextInWaitlist
          (adjustSlots (markCanceled st bid) b.conference_name 1)
          now b.conference_name).bookings → _
      simp only [processNextInWaitlist, hw', setConfirmBy]
      intro hx
      obtain ⟨y, _, rfl⟩ := List.mem_map.mp hx
      by_cases hy : y.booking_id == w.booking_id
      · simp [hy]
      · rw [if_neg (by simpa using hy)] at hxid ⊢
        exact absurd (beq_iff_eq.mpr hxid) (by simpa using hy)
  · -- prior WAITLISTED
    intro hbw
    rw [cancel_state_waitlisted hlb hnost hbw]
    have hndD : ((deleteWaitlistRow (markCanceled st bid) bid).waitlist.map
        (fun w => w.booking_id)).Nodup :=
      List.Nodup.sublist (List.Sublist.map _ (List.filter_sublist _)) hwnd
    refine ⟨rfl, ?_, rfl, ?_, ?_, ?_, ?_⟩
    · intro x hx hxid
      have hx' : x ∈ (st.bookings.map (fun z =>
          if z.booking_id == bid then { z with status := BookingStatus.canceled }
          else z)) := hx
      obtain ⟨z, hz, rfl⟩ := List.mem_map.mp hx'
      by_cases hzb : z.booking_id = bid
      · simp [hzb]
      · rw [if_neg (by simpa using hzb)] at hxid ⊢
        exact absurd hxid hzb
    · intro w hw
      have hw' : w ∈ ((deleteWaitlistRow (markCanceled st bid) bid).waitlist.map
          (applyRanks
            (assignPositions 1
              (sortByCreatedAt
                (confEntries (deleteWaitlistRow (markCanceled st bid) bid)
                  b.conference_name)))
            b.conference_name)) := hw
      obtain ⟨v, hv, rfl⟩ := List.mem_map.mp hw'
      rw [applyRanks_booking_id]
      have hv' : v ∈ (st.waitlist.filter (fun u => u.booking_id != bid)) := hv
      have := (List.mem_filter.mp hv').2
      simpa using this
    · exact reorder_dense _ _ hndD
    · exact reorder_order _ _ hndD
    · rw [confEntries_reorder_self, List.map_map]
      rw [confEntries_deleteRow]
      apply map_congr_fn
      intro w _
      show ((applyRanks _ _ w).booking_id, (applyRanks _ _ w).created_at) = _
      rw [applyRanks_booking_id, applyRanks_created_at]

/-- Witness for C7 at `Wstate`, exercising both branches: canceling the
CONFIRMED booking 1 and canceling the WAITLISTED booking 3. -/
theorem cancel_postconditions_witness :
    ((cancelBooking Wstate 0 1).1 = .canceled ∧
     (∀ x ∈ (cancelBooking Wstate 0 1).2.bookings,
        x.booking_id = 1 → x.status = .canceled) ∧
     getConferenceByName (cancelBooking Wstate 0 1).2 "c"
        = (getConferenceByName Wstate "c").map
            (fun cc => { cc with available_slots := cc.available_slots + 1 }) ∧
     (cancelBooking Wstate 0 1).2.waitlist = Wstate.waitlist ∧
     (∀ w, waitlistHead Wstate "c" = some w →
        ∀ x ∈ (cancelBooking Wstate 0 1).2.bookings,
          x.booking_id = w.booking_id → x.confirm_by = some (0 + gracePeriod))) ∧
    ((cancelBooking Wstate 0 3).1 = .canceled ∧
     (∀ x ∈ (cancelBooking Wstate 0 3).2.bookings,
        x.booking_id = 3 → x.status = .canceled) ∧
     (cancelBooking Wstate 0 3).2.conferences = Wstate.conferences ∧
     (∀ w ∈ (cancelBooking Wstate 0 3).2.waitlist, w.booking_id ≠ 3) ∧
     denseFor (cancelBooking Wstate 0 3).2 "c" ∧
     (∀ w ∈ confEntries (cancelBooking Wstate 0 3).2 "c",
      ∀ w' ∈ confEntries (cancelBooking Wstate 0 3).2 "c",
        w.position < w'.position → w.created_at ≤ w'.created_at) ∧
     (confEntries (cancelBooking Wstate 0 3).2 "c").map
        (fun w => (w.booking_id, w.created_at))
       = ((confEntries Wstate "c").filter (fun w => w.booking_id != 3)).map
          (fun w => (w.booking_id, w.created_at))) :=
  ⟨(cancel_postconditions Wstate 0 1 ⟨1, "c", "A", .confirmed, 0, none⟩
      ⟨"c", 100, 200, 2, 1⟩ (by decide) (by decide) (by decide)).1 (by decide),
   (cancel_postconditions Wstate 0 3 ⟨3, "c", "C", .waitlisted, 0, none⟩
      ⟨"c", 100, 200, 2, 1⟩ (by decide) (by decide) (by decide)).2 (by decide)⟩

end ConfBooking
